import Mathlib

/-!
Verification of the log-processing pipeline (`main.py`): a shallow embedding of
`LogProcessor` (ingestion from files and from in-memory data, date filtering,
per-endpoint average statistics) and `ReportGenerator`, together with theorems
settling the specified properties.

Modelling conventions:
* JSON scalars / Python values are `JVal`.  Numbers (Python int and float) are
  unreduced fractions `PyNum` with a positive denominator; exact rational
  arithmetic stands in for IEEE doubles.  Nested JSON arrays and objects are
  outside the model: no property of interest involves them.
* A log record (Python dict) is an association list with distinct keys.
* Fallible Python code is `Except PyErr` / `Option`; an uncaught Python
  exception is an `.error`.
* `datetime.fromisoformat` and `datetime.strptime(_, "%Y-%m-%d")` are modelled
  on the common ISO-8601 extended forms they accept: `YYYY-MM-DD`, optionally
  a one-character separator and `HH[:MM[:SS[.fff...]]]`, optionally a UTC
  offset `+HH:MM`/`-HH:MM`.
-/

namespace LogProc

/-- An exact Python number (int or float), as an unreduced fraction
`num / den`.  Every constructor used by the model keeps `0 < den`. -/
structure PyNum where
  num : Int
  den : Int
deriving DecidableEq, Repr

/-- The integer `n` as a `PyNum`. -/
def PyNum.ofInt (n : Int) : PyNum := ⟨n, 1⟩

/-- Exact addition of fractions (`+=` on response times). -/
def PyNum.add (a b : PyNum) : PyNum :=
  ⟨a.num * b.den + b.num * a.den, a.den * b.den⟩

/-- Exact division of fractions (`total_time / count`), keeping the
denominator positive when both operands have positive denominators and the
divisor is nonzero. -/
def PyNum.div (a b : PyNum) : PyNum :=
  if b.num < 0 then ⟨-(a.num * b.den), a.den * (-b.num)⟩
  else ⟨a.num * b.den, a.den * b.num⟩

/-- The rational value of a `PyNum`. -/
def PyNum.toRat (p : PyNum) : ℚ := (p.num : ℚ) / (p.den : ℚ)

/-- JSON scalar values as produced by `json.loads` for the fields of a log
record, and equally the loosely-typed Python values stored in a record.
`null` is Python `None`. -/
inductive JVal where
  | str (s : String)
  | num (q : PyNum)
  | bool (b : Bool)
  | null
deriving DecidableEq, Repr

/-- A log record: a Python dict from string keys to loosely-typed values,
represented as an association list with (by construction) distinct keys. -/
abbrev LogEntry := List (String × JVal)

/-- `d.get(key)`: first binding of `key`, `none` standing for Python `None`
when the key is absent. -/
def getField : LogEntry → String → Option JVal
  | [], _ => none
  | (k, v) :: rest, key => if k = key then some v else getField rest key

/-- Python truthiness of a `JVal` (`bool(v)`). -/
def JVal.truthy : JVal → Bool
  | .str s => !s.isEmpty
  | .num q => decide (q.num ≠ 0)
  | .bool b => b
  | .null => false

/-- Python truthiness of the result of `d.get(key)` (absent key gives `None`,
which is falsy). -/
def optTruthy : Option JVal → Bool
  | none => false
  | some v => v.truthy

/-- Python `v is not None` for the result of `d.get(key)`: absent keys give
`None`, and JSON `null` is also `None`. -/
def isNotNone : Option JVal → Bool
  | none => false
  | some .null => false
  | some _ => true

/-- Uncaught Python exceptions that the modelled code can raise. -/
inductive PyErr where
  | attributeError
  | typeError
deriving DecidableEq, Repr

/-! ### Calendar dates and datetime parsing -/

/-- A Python `datetime.date`: calendar year, month, day. -/
structure Date where
  year : Nat
  month : Nat
  day : Nat
deriving DecidableEq, Repr

/-- Gregorian leap-year test, as in Python's `calendar.isleap`. -/
def isLeapYear (y : Nat) : Bool :=
  (y % 4 == 0 && y % 100 != 0) || y % 400 == 0

/-- Number of days in a month of a given year. -/
def daysInMonth (y m : Nat) : Nat :=
  if m = 2 then (if isLeapYear y then 29 else 28)
  else if m = 4 ∨ m = 6 ∨ m = 9 ∨ m = 11 then 30
  else 31

/-- Validity of a year/month/day triple for the `datetime` constructors
(year range 1–9999, as in Python). -/
def validYMD (y m d : Nat) : Bool :=
  decide (1 ≤ y) && decide (y ≤ 9999) && decide (1 ≤ m) && decide (m ≤ 12) &&
    decide (1 ≤ d) && decide (d ≤ daysInMonth y m)

/-- Numeric value of an ASCII digit. -/
def digitVal (c : Char) : Option Nat :=
  if c.isDigit then some (c.toNat - 48) else none

/-- Parse exactly two ASCII digits. -/
def parse2Digits : List Char → Option (Nat × List Char)
  | c1 :: c2 :: rest => do
    let d1 ← digitVal c1
    let d2 ← digitVal c2
    pure (10 * d1 + d2, rest)
  | _ => none

/-- Parse exactly four ASCII digits. -/
def parse4Digits : List Char → Option (Nat × List Char)
  | c1 :: c2 :: c3 :: c4 :: rest => do
    let d1 ← digitVal c1
    let d2 ← digitVal c2
    let d3 ← digitVal c3
    let d4 ← digitVal c4
    pure (1000 * d1 + 100 * d2 + 10 * d3 + d4, rest)
  | _ => none

/-- Parse one or two ASCII digits, greedily, as the `%m`/`%d` directives of
`strptime` do. -/
def parse1or2Digits : List Char → Option (Nat × List Char)
  | [] => none
  | [c1] => (digitVal c1).map (fun d => (d, []))
  | c1 :: c2 :: rest =>
    match digitVal c1 with
    | none => none
    | some d1 =>
      match digitVal c2 with
      | some d2 => some (10 * d1 + d2, rest)
      | none => some (d1, c2 :: rest)

/-- Longest prefix of ASCII digits and the remainder. -/
def spanDigits : List Char → List Char × List Char
  | [] => ([], [])
  | c :: rest =>
    if c.isDigit then
      let (ds, r) := spanDigits rest
      (c :: ds, r)
    else ([], c :: rest)

/-- Natural number denoted by a list of ASCII digits. -/
def digitsToNat (ds : List Char) : Nat :=
  ds.foldl (fun a c => 10 * a + (c.toNat - 48)) 0

/-- A Python (timezone-aware or naive) `datetime`: calendar date, time of day,
and the UTC offset in minutes when one is present. -/
structure PyDateTime where
  date : Date
  hour : Nat
  minute : Nat
  second : Nat
  microsec : Nat
  offsetMinutes : Option Int
deriving DecidableEq, Repr

/-- Fractional-second digits to microseconds, as `fromisoformat` reads them
(digits beyond six are truncated). -/
def fracToMicro (ds : List Char) : Nat :=
  digitsToNat (ds.take 6) * 10 ^ (6 - min 6 ds.length)

/-- Parse a trailing UTC offset `+HH:MM` / `-HH:MM` (or nothing), returning
the offset in minutes; out-of-range fields are a parse error. -/
def parseOffset : List Char → Option (Option Int)
  | [] => some none
  | sign :: rest =>
    if sign = '+' ∨ sign = '-' then
      match parse2Digits rest with
      | some (oh, ':' :: rest2) =>
        match parse2Digits rest2 with
        | some (om, []) =>
          if oh ≤ 23 && om ≤ 59 then
            let v : Int := oh * 60 + om
            some (some (if sign = '-' then -v else v))
          else none
        | _ => none
      | _ => none
    else none

/-- Range-check a parsed time of day and package it with the offset. -/
def validTime (h m s usec : Nat) (off : Option Int) :
    Option (Nat × Nat × Nat × Nat × Option Int) :=
  if h ≤ 23 && m ≤ 59 && s ≤ 59 then some (h, m, s, usec, off) else none

/-- Parse the time-of-day part `HH[:MM[:SS[.fff...]]]` followed by an optional
UTC offset, consuming the whole input. -/
def parseTimeOfDay (cs : List Char) : Option (Nat × Nat × Nat × Nat × Option Int) := do
  let (h, rest) ← parse2Digits cs
  match rest with
  | ':' :: r1 => do
    let (m, rest2) ← parse2Digits r1
    match rest2 with
    | ':' :: r2 => do
      let (s, rest3) ← parse2Digits r2
      match rest3 with
      | '.' :: r3 =>
        let (ds, r4) := spanDigits r3
        if ds.isEmpty then none
        else do
          let off ← parseOffset r4
          validTime h m s (fracToMicro ds) off
      | _ => do
        let off ← parseOffset rest3
        validTime h m s 0 off
    | _ => do
      let off ← parseOffset rest2
      validTime h m 0 0 off
  | _ => do
    let off ← parseOffset rest
    validTime h 0 0 0 off

/-- Model of `datetime.fromisoformat`: `YYYY-MM-DD`, optionally followed by a
single separator character and a time of day with optional UTC offset.
Returns `none` where Python raises `ValueError`. -/
def pyFromisoformat (s : String) : Option PyDateTime := do
  let (y, r1) ← parse4Digits s.data
  match r1 with
  | '-' :: r2 => do
    let (mo, r3) ← parse2Digits r2
    match r3 with
    | '-' :: r4 => do
      let (d, r5) ← parse2Digits r4
      if validYMD y mo d then
        match r5 with
        | [] => pure ⟨⟨y, mo, d⟩, 0, 0, 0, 0, none⟩
        | _sep :: timecs => do
          let (h, mi, se, us, off) ← parseTimeOfDay timecs
          pure ⟨⟨y, mo, d⟩, h, mi, se, us, off⟩
      else none
    | _ => none
  | _ => none

/-- Model of `datetime.strptime(s, "%Y-%m-%d").date()`: four year digits,
then month and day as one or two digits each (as the `strptime` directives
accept), the whole string consumed, and the triple valid.  Returns `none`
where Python raises `ValueError`. -/
def pyStrptimeYmd (s : String) : Option Date :=
  match parse4Digits s.data with
  | some (y, '-' :: r1) =>
    match parse1or2Digits r1 with
    | some (m, '-' :: r2) =>
      match parse1or2Digits r2 with
      | some (d, []) => if validYMD y m d then some ⟨y, m, d⟩ else none
      | _ => none
    | _ => none
  | _ => none

/-! ### The date-filter predicate -/

/-- Model of `timestamp.replace("Z", "+00:00")`: every occurrence of the
one-character pattern `Z` is replaced by `+00:00`. -/
def replaceZChars : List Char → List Char
  | [] => []
  | c :: rest =>
    if c = 'Z' then '+' :: '0' :: '0' :: ':' :: '0' :: '0' :: replaceZChars rest
    else c :: replaceZChars rest

/-- String form of `replaceZChars`. -/
def replaceZ (s : String) : String := ⟨replaceZChars s.data⟩

/-- `LogProcessor._should_include_log`.  `date_filter = none` is Python
`None`; a `some ""` filter is falsy exactly like `None`.  A truthy non-string
`@timestamp` value reaches `timestamp.replace` and raises `AttributeError`,
which the `except (ValueError, TypeError)` clause does not catch. -/
def should_include_log (log_entry : LogEntry) (date_filter : Option String) :
    Except PyErr Bool :=
  match date_filter with
  | none => .ok true
  | some f =>
    if f.isEmpty then .ok true
    else
      match getField log_entry "@timestamp" with
      | none => .ok false
      | some ts =>
        if ts.truthy = false then .ok false
        else
          match ts with
          | .str s =>
            match pyFromisoformat (replaceZ s) with
            | none => .ok false
            | some dt =>
              match pyStrptimeYmd f with
              | none => .ok false
              | some fd => .ok (decide (dt.date = fd))
          | _ => .error .attributeError

example : pyFromisoformat "2025-06-22T13:57:32+00:00" =
    some ⟨⟨2025, 6, 22⟩, 13, 57, 32, 0, some 0⟩ := rfl

example : replaceZ "2025-06-22T13:57:32Z" = "2025-06-22T13:57:32+00:00" := rfl

example : pyFromisoformat "2025-06-22" = some ⟨⟨2025, 6, 22⟩, 0, 0, 0, 0, none⟩ := rfl

example : pyFromisoformat "2025-02-30" = none := rfl

example : pyFromisoformat "invalid-timestamp" = none := rfl

example : pyFromisoformat "2025-06-22T23:00:00-05:00" =
    some ⟨⟨2025, 6, 22⟩, 23, 0, 0, 0, some (-300)⟩ := rfl

example : pyStrptimeYmd "2025-06-22" = some ⟨2025, 6, 22⟩ := rfl

example : pyStrptimeYmd "2025-6-2" = some ⟨2025, 6, 2⟩ := rfl

example : pyStrptimeYmd "2025-13-01" = none := rfl

example : pyStrptimeYmd "" = none := rfl

example :
    should_include_log [("@timestamp", .str "2025-06-22T13:57:32+00:00")]
      (some "2025-06-22") = .ok true := rfl

example :
    should_include_log [("@timestamp", .str "2025-06-22T13:57:32+00:00")]
      (some "2025-06-23") = .ok false := rfl

example :
    should_include_log [("@timestamp", .num (.ofInt 123))] (some "2025-06-22") =
      .error .attributeError := rfl

example :
    should_include_log [("@timestamp", .num (.ofInt 123))] none = .ok true := rfl

/-! ### JSON parsing of log lines

A model of `json.loads` on one log line, restricted to a single flat object
of scalar values (the shape of the repository's log records); nested arrays
and objects are outside the model.  `none` is a `json.JSONDecodeError`. -/

/-- Opening curly brace character. -/
def lbrace : Char := Char.ofNat 123

/-- Closing curly brace character. -/
def rbrace : Char := Char.ofNat 125

/-- JSON whitespace. -/
def isJsonWs (c : Char) : Bool :=
  c = ' ' ∨ c = '\t' ∨ c = '\n' ∨ c = '\r'

/-- Drop leading JSON whitespace. -/
def skipWs : List Char → List Char
  | [] => []
  | c :: rest => if isJsonWs c then skipWs rest else c :: rest

/-- Single-character JSON string escapes. -/
def escChar (e : Char) : Option Char :=
  if e = '"' then some '"'
  else if e = '\\' then some '\\'
  else if e = '/' then some '/'
  else if e = 'b' then some (Char.ofNat 8)
  else if e = 'f' then some (Char.ofNat 12)
  else if e = 'n' then some '\n'
  else if e = 'r' then some '\r'
  else if e = 't' then some '\t'
  else none

/-- Value of a hexadecimal digit. -/
def hexVal (c : Char) : Option Nat :=
  if c.isDigit then some (c.toNat - 48)
  else if 'a' ≤ c ∧ c ≤ 'f' then some (c.toNat - 87)
  else if 'A' ≤ c ∧ c ≤ 'F' then some (c.toNat - 55)
  else none

/-- Parse the body of a JSON string after the opening quote, returning content
and remainder after the closing quote. -/
def parseJStringBody : List Char → Option (List Char × List Char)
  | [] => none
  | '"' :: rest => some ([], rest)
  | '\\' :: 'u' :: h1 :: h2 :: h3 :: h4 :: rest => do
    let v1 ← hexVal h1
    let v2 ← hexVal h2
    let v3 ← hexVal h3
    let v4 ← hexVal h4
    let (s, r) ← parseJStringBody rest
    pure (Char.ofNat (4096 * v1 + 256 * v2 + 16 * v3 + v4) :: s, r)
  | '\\' :: e :: rest => do
    let c ← escChar e
    let (s, r) ← parseJStringBody rest
    pure (c :: s, r)
  | c :: rest =>
    if c.toNat < 32 then none
    else do
      let (s, r) ← parseJStringBody rest
      pure (c :: s, r)

/-- Parse an optional JSON fraction part `.digits`. -/
def parseFracPart : List Char → Option (List Char × List Char)
  | '.' :: r =>
    match spanDigits r with
    | ([], _) => none
    | (ds, rest) => some (ds, rest)
  | cs => some ([], cs)

/-- Parse an optional JSON exponent part `e[+-]digits`. -/
def parseExpPart : List Char → Option (Int × List Char)
  | [] => some (0, [])
  | e :: r =>
    if e = 'e' ∨ e = 'E' then
      let (sgn, r2) : Int × List Char :=
        match r with
        | '+' :: t => (1, t)
        | '-' :: t => (-1, t)
        | t => (1, t)
      match spanDigits r2 with
      | ([], _) => none
      | (ds, rest) => some (sgn * digitsToNat ds, rest)
    else some (0, e :: r)

/-- Parse a JSON number into an exact fraction. -/
def parseJNumber (cs : List Char) : Option (PyNum × List Char) :=
  let (neg, cs1) : Bool × List Char :=
    match cs with
    | '-' :: r => (true, r)
    | r => (false, r)
  match spanDigits cs1 with
  | ([], _) => none
  | (ids, rest) =>
    if 2 ≤ ids.length ∧ ids.head? = some '0' then none
    else do
      let (fds, rest2) ← parseFracPart rest
      let (ex, rest3) ← parseExpPart rest2
      let base : Int := digitsToNat (ids ++ fds)
      let signed : Int := if neg then -base else base
      let tenExp : Int := ex - fds.length
      let p : PyNum :=
        if 0 ≤ tenExp then ⟨signed * 10 ^ tenExp.toNat, 1⟩
        else ⟨signed, (10 : Int) ^ (-tenExp).toNat⟩
      pure (p, rest3)

/-- Parse one scalar JSON value. -/
def parseScalar : List Char → Option (JVal × List Char)
  | '"' :: rest => (parseJStringBody rest).map (fun sr => (.str ⟨sr.1⟩, sr.2))
  | 't' :: 'r' :: 'u' :: 'e' :: rest => some (.bool true, rest)
  | 'f' :: 'a' :: 'l' :: 's' :: 'e' :: rest => some (.bool false, rest)
  | 'n' :: 'u' :: 'l' :: 'l' :: rest => some (.null, rest)
  | cs => (parseJNumber cs).map (fun pr => (.num pr.1, pr.2))

/-- Python dict insertion: replace the value of an existing key in place, or
append a new key at the end (so later duplicate JSON keys win, and keys stay
distinct). -/
def updEntry : LogEntry → String → JVal → LogEntry
  | [], k, v => [(k, v)]
  | (k1, v1) :: rest, k, v =>
    if k1 = k then (k1, v) :: rest else (k1, v1) :: updEntry rest k v

/-- Parse the members of a JSON object after its opening brace (at least one
member), fuelled by the input length. -/
def parseMembers : Nat → List Char → LogEntry → Option (LogEntry × List Char)
  | 0, _, _ => none
  | fuel + 1, cs, acc =>
    match skipWs cs with
    | '"' :: rest => do
      let (kcs, r1) ← parseJStringBody rest
      match skipWs r1 with
      | ':' :: r2 => do
        let (v, r3) ← parseScalar (skipWs r2)
        match skipWs r3 with
        | c :: r4 =>
          if c = ',' then parseMembers fuel r4 (updEntry acc ⟨kcs⟩ v)
          else if c = rbrace then some (updEntry acc ⟨kcs⟩ v, r4)
          else none
        | [] => none
      | _ => none
    | _ => none

/-- Model of `json.loads` on a log line: a single flat JSON object of scalar
values, with nothing but whitespace after it.  `none` is a
`json.JSONDecodeError`. -/
def jsonLoads (s : String) : Option LogEntry :=
  match skipWs s.data with
  | c :: rest =>
    if c = lbrace then
      match skipWs rest with
      | c2 :: rest2 =>
        if c2 = rbrace then
          if (skipWs rest2).isEmpty then some [] else none
        else
          match parseMembers (s.length + 1) (c2 :: rest2) [] with
          | some (entry, r) => if (skipWs r).isEmpty then some entry else none
          | none => none
      | [] => none
    else none
  | [] => none

/-! ### Ingestion -/

/-- Python `str.strip()` whitespace. -/
def isPySpace (c : Char) : Bool :=
  c = ' ' ∨ c = '\t' ∨ c = '\n' ∨ c = '\r' ∨ c = Char.ofNat 11 ∨ c = Char.ofNat 12

/-- Model of `line.strip()`. -/
def pyStrip (s : String) : String :=
  ⟨((s.data.dropWhile isPySpace).reverse.dropWhile isPySpace).reverse⟩

/-- State of a path in the file system: missing (fails `path.exists()`),
present but failing to open/read (the `except Exception` arm), or readable
with the given lines. -/
inductive FileState where
  | absent
  | readError
  | content (lines : List String)
deriving Repr

/-- A file system: paths mapped to their states; unmentioned paths are
absent. -/
abbrev FileSys := List (String × FileState)

/-- Look a path up in the file system. -/
def lookupFile : FileSys → String → FileState
  | [], _ => .absent
  | (p, st) :: rest, path => if p = path then st else lookupFile rest path

/-- Non-fatal diagnostics written to `stderr` during ingestion. -/
inductive Diag where
  | missingFile (path : String)
  | invalidJson (path : String) (lineNum : Nat)
  | readError (path : String)
deriving DecidableEq, Repr

/-- The mutable `LogProcessor` state: its retained records. -/
structure LogProcessor where
  logs : List LogEntry
deriving DecidableEq, Repr

/-- A freshly constructed `LogProcessor` (empty store). -/
def LogProcessor.new : LogProcessor := ⟨[]⟩

/-- The per-file line loop of `load_logs`: blank lines are skipped, invalid
JSON lines are skipped with a diagnostic, records passing the date filter are
appended.  An exception escaping `_should_include_log` (not a
`JSONDecodeError`) aborts the rest of the file and is caught by the per-file
`except Exception` arm, which reports the file-level read-error diagnostic.
Records appended before the abort are retained. -/
def processFileLines (date_filter : Option String) (path : String) :
    List String → Nat → List LogEntry → List LogEntry × List Diag
  | [], _, logs => (logs, [])
  | line :: rest, lineNum, logs =>
    let l := pyStrip line
    if l.isEmpty then processFileLines date_filter path rest (lineNum + 1) logs
    else
      match jsonLoads l with
      | none =>
        let (logs2, ds) := processFileLines date_filter path rest (lineNum + 1) logs
        (logs2, .invalidJson path lineNum :: ds)
      | some entry =>
        match should_include_log entry date_filter with
        | .ok true =>
          processFileLines date_filter path rest (lineNum + 1) (logs ++ [entry])
        | .ok false => processFileLines date_filter path rest (lineNum + 1) logs
        | .error _ => (logs, [.readError path])

/-- The path loop of `load_logs`: missing paths and unreadable files are
skipped with a diagnostic and never abort the loop. -/
def loadLogsAux (fs : FileSys) (date_filter : Option String) :
    List String → List LogEntry → List LogEntry × List Diag
  | [], logs => (logs, [])
  | path :: rest, logs =>
    match lookupFile fs path with
    | .absent =>
      let (l2, ds) := loadLogsAux fs date_filter rest logs
      (l2, .missingFile path :: ds)
    | .readError =>
      let (l2, ds) := loadLogsAux fs date_filter rest logs
      (l2, .readError path :: ds)
    | .content lines =>
      let (l1, ds1) := processFileLines date_filter path lines 1 logs
      let (l2, ds2) := loadLogsAux fs date_filter rest l1
      (l2, ds1 ++ ds2)

/-- `LogProcessor.load_logs`: resets the store (`self.logs = []`) and refills
it from the given paths, returning the new state and the emitted
diagnostics.  No exception propagates out of it. -/
def load_logs (_p : LogProcessor) (fs : FileSys) (file_paths : List String)
    (date_filter : Option String) : LogProcessor × List Diag :=
  let (logs, ds) := loadLogsAux fs date_filter file_paths []
  (⟨logs⟩, ds)

/-- The record loop of `load_logs_from_data`; an exception escaping
`_should_include_log` propagates to the caller, leaving the records appended
so far in the store. -/
def loadFromDataAux (date_filter : Option String) :
    List LogEntry → List LogEntry → List LogEntry × Option PyErr
  | [], acc => (acc, none)
  | e :: rest, acc =>
    match should_include_log e date_filter with
    | .ok true => loadFromDataAux date_filter rest (acc ++ [e])
    | .ok false => loadFromDataAux date_filter rest acc
    | .error err => (acc, some err)

/-- `LogProcessor.load_logs_from_data`: resets the store and refills it from
the in-memory records, returning the new state and the uncaught exception if
one was raised. -/
def load_logs_from_data (_p : LogProcessor) (log_data : List LogEntry)
    (date_filter : Option String) : LogProcessor × Option PyErr :=
  let (logs, err) := loadFromDataAux date_filter log_data []
  (⟨logs⟩, err)

example : jsonLoads "\x7b\"valid\": \"json\"\x7d" = some [("valid", .str "json")] := rfl

example : jsonLoads "invalid json line" = none := rfl

example :
    jsonLoads "\x7b\"@timestamp\": \"2025-06-22T10:00:00+00:00\", \"url\": \"/a\", \"response_time\": 0.1\x7d" =
      some [("@timestamp", .str "2025-06-22T10:00:00+00:00"), ("url", .str "/a"),
        ("response_time", .num ⟨1, 10⟩)] := rfl

example : jsonLoads "\x7b\"a\": -2.5e2, \"a\": null\x7d" = some [("a", .null)] := rfl

example : jsonLoads "\x7b\"n\": 250, \"b\": true\x7d" =
    some [("n", .num ⟨250, 1⟩), ("b", .bool true)] := rfl

example : pyStrip "  \x7b\"a\": 1\x7d \n" = "\x7b\"a\": 1\x7d" := rfl

example :
    load_logs .new [("f.log", .content ["\x7b\"valid\": \"json\"\x7d", "", "not json"])]
      ["f.log"] none =
      (⟨[[("valid", .str "json")]]⟩, [.invalidJson "f.log" 3]) := rfl

example :
    load_logs .new [] ["missing.log"] none = (⟨[]⟩, [.missingFile "missing.log"]) := rfl

/-! ### Aggregation: `generate_average_report` -/

/-- One accumulator of the `endpoint_stats` defaultdict:
`{"count": ..., "total_time": ...}`. -/
structure StatAcc where
  count : Nat
  total : PyNum
deriving DecidableEq, Repr

/-- `total_time += response_time`: adding a Python value to a float.  Numbers
and bools add; anything else raises `TypeError`. -/
def pyAddRT (t : PyNum) : JVal → Except PyErr PyNum
  | .num q => .ok (t.add q)
  | .bool b => .ok (t.add (.ofInt (if b then 1 else 0)))
  | _ => .error .typeError

/-- Python `v is not None` on a present value. -/
def JVal.isNotNull : JVal → Bool
  | .null => false
  | _ => true

/-- One step of the aggregation loop on the `endpoint_stats` insertion-ordered
dict: bump the accumulator of `url` in place, or append a fresh one
(`defaultdict` creates `{"count": 0, "total_time": 0.0}` first). -/
def updStats (stats : List (JVal × StatAcc)) (url : JVal) (rt : JVal) :
    Except PyErr (List (JVal × StatAcc)) :=
  match stats with
  | [] =>
    match pyAddRT ⟨0, 1⟩ rt with
    | .ok t => .ok [(url, ⟨1, t⟩)]
    | .error e => .error e
  | (k, a) :: rest =>
    if k = url then
      match pyAddRT a.total rt with
      | .ok t => .ok ((k, ⟨a.count + 1, t⟩) :: rest)
      | .error e => .error e
    else
      match updStats rest url rt with
      | .ok s => .ok ((k, a) :: s)
      | .error e => .error e

/-- The aggregation loop of `generate_average_report`: records with a falsy
(missing or empty) `url` or a missing/`null` `response_time` are skipped
silently. -/
def buildStats : List LogEntry → List (JVal × StatAcc) →
    Except PyErr (List (JVal × StatAcc))
  | [], stats => .ok stats
  | log :: rest, stats =>
    match getField log "url", getField log "response_time" with
    | some u, some r =>
      if u.truthy && r.isNotNull then
        match updStats stats u r with
        | .ok s2 => buildStats rest s2
        | .error e => .error e
      else buildStats rest stats
    | _, _ => buildStats rest stats

/-- Codepoint-lexicographic order on character lists (Python string `<=`). -/
def charsLe : List Char → List Char → Bool
  | [], _ => true
  | _ :: _, [] => false
  | a :: as, b :: bs =>
    if a.toNat < b.toNat then true
    else if b.toNat < a.toNat then false
    else charsLe as bs

/-- Python string `<=` by codepoints. -/
def strLe (a b : String) : Bool := charsLe a.data b.data

/-- The string carried by a string `JVal` (used only where all keys are
strings). -/
def keyStr : JVal → String
  | .str s => s
  | _ => ""

/-- Numeric value of a Python number-or-bool sort key. -/
def numVal : JVal → PyNum
  | .num q => q
  | .bool b => .ofInt (if b then 1 else 0)
  | _ => .ofInt 0

/-- Value order on exact fractions with positive denominators. -/
def pyNumLe (a b : PyNum) : Bool := decide (a.num * b.den ≤ b.num * a.den)

/-- Sort order on `endpoint_stats.items()` when all keys are strings. -/
def strItemLe (a b : JVal × StatAcc) : Prop :=
  strLe (keyStr a.1) (keyStr b.1) = true

instance : DecidableRel strItemLe := fun a b =>
  instDecidableEqBool (strLe (keyStr a.1) (keyStr b.1)) true

/-- Sort order on `endpoint_stats.items()` when all keys are numbers or
bools. -/
def numItemLe (a b : JVal × StatAcc) : Prop :=
  pyNumLe (numVal a.1) (numVal b.1) = true

instance : DecidableRel numItemLe := fun a b =>
  instDecidableEqBool (pyNumLe (numVal a.1) (numVal b.1)) true

/-- Whether an item's key is a string. -/
def isStrKey (it : JVal × StatAcc) : Bool :=
  match it.1 with
  | .str _ => true
  | _ => false

/-- Whether an item's key is a number or a bool (mutually comparable in
Python). -/
def isNumKey (it : JVal × StatAcc) : Bool :=
  match it.1 with
  | .num _ => true
  | .bool _ => true
  | _ => false

/-- Model of `sorted(endpoint_stats.items())`: keys are compared, so all keys
must be strings, or all numbers/bools; a mixed set raises `TypeError`.
(Distinct dict keys make the tuple comparison never reach the values.) -/
def sortItems (items : List (JVal × StatAcc)) :
    Except PyErr (List (JVal × StatAcc)) :=
  if items.all isStrKey then .ok (items.insertionSort strItemLe)
  else if items.all isNumKey then .ok (items.insertionSort numItemLe)
  else .error .typeError

/-! ### Fixed-point formatting: `f-string .3f` -/

/-- Round `a / b` (with `0 < b`) to the nearest integer, ties to even, as
float formatting does. -/
def roundHalfEven (a b : Int) : Int :=
  let q := a.fdiv b
  let r := a.fmod b
  if 2 * r < b then q
  else if b < 2 * r then q + 1
  else if q % 2 = 0 then q else q + 1

/-- Decimal digits of a natural number, most significant first, fuelled. -/
def natDigitsAux : Nat → Nat → List Char
  | 0, _ => []
  | fuel + 1, n =>
    if n < 10 then [Nat.digitChar n]
    else natDigitsAux fuel (n / 10) ++ [Nat.digitChar (n % 10)]

/-- Decimal digits of a natural number, most significant first. -/
def natDigits (n : Nat) : List Char := natDigitsAux (n + 1) n

/-- Exactly three decimal digits of `m < 1000`, zero-padded. -/
def pad3 (m : Nat) : List Char :=
  [Nat.digitChar (m / 100 % 10), Nat.digitChar (m / 10 % 10), Nat.digitChar (m % 10)]

/-- Model of `f"\x7bavg_time:.3f\x7d"` on an exact value: fixed-point, exactly
three digits after the point, round-half-to-even. -/
def format3 (p : PyNum) : String :=
  let n := roundHalfEven (p.num * 1000) p.den
  let m := n.natAbs
  ⟨(if n < 0 then ['-'] else []) ++ natDigits (m / 1000) ++ '.' :: pad3 (m % 1000)⟩

/-- One row of the average report: `[url, stats["count"], f"\x7bavg:.3f\x7d"]`. -/
structure StatRow where
  url : JVal
  total : Nat
  avg : String
deriving DecidableEq, Repr

/-- Materialize one sorted `endpoint_stats` item into a report row
(`avg_time = stats["total_time"] / stats["count"]`). -/
def mkRow (it : JVal × StatAcc) : StatRow :=
  ⟨it.1, it.2.count, format3 (it.2.total.div (.ofInt it.2.count))⟩

/-- `LogProcessor.generate_average_report`. -/
def generate_average_report (logs : List LogEntry) : Except PyErr (List StatRow) :=
  match buildStats logs [] with
  | .ok stats =>
    match sortItems stats with
    | .ok sorted => .ok (sorted.map mkRow)
    | .error e => .error e
  | .error e => .error e

/-! ### Report rendering -/

/-- The cell text of a row's url as the external table renderer would show
it.  Only string urls appear in the verified properties. -/
def cellStr : JVal → String
  | .str s => s
  | .num p => ⟨natDigits p.num.natAbs⟩
  | .bool b => if b then "True" else "False"
  | .null => "None"

/-- The external grid renderer (`tabulate.tabulate`), treated as a thin
formatting collaborator: headers and rows joined into text. -/
def tabulateRender (headers : List String) (rows : List StatRow) : String :=
  String.intercalate "\n"
    (String.intercalate " | " headers ::
      rows.map (fun r =>
        String.intercalate " | " [cellStr r.url, ⟨natDigits r.total⟩, r.avg]))

/-- `ReportGenerator.generate_report`: `"average"` renders the statistics (or
the no-data text when they are empty); any other report type yields `None`. -/
def generate_report (p : LogProcessor) (report_type : String) :
    Except PyErr (Option String) :=
  if report_type = "average" then
    match generate_average_report p.logs with
    | .ok rows =>
      if rows.isEmpty then .ok (some "No data found for the specified criteria.")
      else .ok (some (tabulateRender ["handler", "total", "avg_response_time"] rows))
    | .error e => .error e
  else .ok none

example :
    generate_average_report
      [[("url", .str "/a"), ("response_time", .num ⟨1, 10⟩)],
       [("url", .str "/a"), ("response_time", .num ⟨3, 10⟩)]] =
      .ok [⟨.str "/a", 2, "0.200"⟩] := rfl

example :
    generate_average_report
      [[("url", .str "/b"), ("response_time", .num ⟨2, 10⟩)],
       [("url", .str "/a"), ("response_time", .num ⟨1, 10⟩)]] =
      .ok [⟨.str "/a", 1, "0.100"⟩, ⟨.str "/b", 1, "0.200"⟩] := rfl

example : generate_average_report [] = .ok [] := rfl

example :
    generate_average_report [[("url", .str "/a"), ("response_time", .str "x")]] =
      .error .typeError := rfl

example :
    generate_average_report
      [[("url", .str ""), ("response_time", .num ⟨1, 1⟩)],
       [("url", .str "/c")], [("response_time", .num ⟨1, 1⟩)]] = .ok [] := rfl

example :
    generate_report ⟨[]⟩ "average" =
      .ok (some "No data found for the specified criteria.") := rfl

example : generate_report ⟨[]⟩ "unknown" = .ok none := rfl

example : format3 ⟨-1, 3⟩ = "-0.333" := rfl

example : format3 ⟨3, 2⟩ = "1.500" := rfl

example : format3 ⟨1234567, 100⟩ = "12345.670" := rfl

/-! ### Specification-side definitions

Definitions written from the specification's words rather than from the
source, used to state properties and counterexamples. -/

/-- Days since 1970-01-01 of a civil calendar date (proleptic Gregorian). -/
def daysFromCivil (y m d : Int) : Int :=
  let y2 := if m ≤ 2 then y - 1 else y
  let era := Int.fdiv y2 400
  let yoe := y2 - era * 400
  let mp := if 2 < m then m - 3 else m + 9
  let doy := Int.fdiv (153 * mp + 2) 5 + d - 1
  let doe := yoe * 365 + Int.fdiv yoe 4 - Int.fdiv yoe 100 + doy
  era * 146097 + doe - 719468

/-- Civil calendar date of a number of days since 1970-01-01. -/
def civilFromDays (z0 : Int) : Date :=
  let z := z0 + 719468
  let era := Int.fdiv z 146097
  let doe := z - era * 146097
  let yoe :=
    Int.fdiv (doe - Int.fdiv doe 1460 + Int.fdiv doe 36524 - Int.fdiv doe 146096) 365
  let y := yoe + era * 400
  let doy := doe - (365 * yoe + Int.fdiv yoe 4 - Int.fdiv yoe 100)
  let mp := Int.fdiv (5 * doy + 2) 153
  let d := doy - Int.fdiv (153 * mp + 2) 5 + 1
  let m := if mp < 10 then mp + 3 else mp - 9
  let y2 := if m ≤ 2 then y + 1 else y
  ⟨y2.toNat, m.toNat, d.toNat⟩

/-- The calendar date of a parsed timestamp interpreted in UTC, as the
specification words it: the instant is normalized by its UTC offset (a naive
timestamp read as UTC) and the date is taken in UTC. -/
def specUtcCalendarDate (dt : PyDateTime) : Date :=
  let days := daysFromCivil dt.date.year dt.date.month dt.date.day
  let mins :=
    days * 1440 + (dt.hour : Int) * 60 + (dt.minute : Int) - dt.offsetMinutes.getD 0
  civilFromDays (Int.fdiv mins 1440)

/-- A record contributes to the statistic of key `u` when its `url` equals
`u`, is truthy, and its `response_time` is present and non-null (the skip
condition of the aggregation loop). -/
def contributes (u : JVal) (log : LogEntry) : Bool :=
  match getField log "url", getField log "response_time" with
  | some v, some r => decide (v = u) && v.truthy && r.isNotNull
  | _, _ => false

/-- Number of records contributing to key `u`. -/
def contribCount (u : JVal) (logs : List LogEntry) : Nat :=
  (logs.filter (contributes u)).length

/-- Exact response time of a record as a rational (meaningful for the
contributing records, whose `response_time` is a number or bool). -/
def rtRat (log : LogEntry) : ℚ :=
  (numVal ((getField log "response_time").getD .null)).toRat

/-- Exact sum of the response times contributing to key `u`. -/
def contribRatSum (u : JVal) (logs : List LogEntry) : ℚ :=
  ((logs.filter (contributes u)).map rtRat).sum

/-- The claim's weaker contribution test (C4 as stated): the record has `url`
equal to `u` and a non-null `response_time`, with no truthiness requirement. -/
def claimHasUrlRT (u : JVal) (log : LogEntry) : Bool :=
  decide (getField log "url" = some u) && isNotNone (getField log "response_time")

/-- Checker for "a fixed-point decimal with exactly three digits after the
point": an optional minus sign, a nonempty run of digits, one dot, exactly
three digits, and nothing else (in particular no exponent). -/
def splitAtDot : List Char → Option (List Char × List Char)
  | [] => none
  | c :: rest =>
    if c = '.' then some ([], rest)
    else (splitAtDot rest).map (fun p => (c :: p.1, p.2))

/-- All characters are ASCII digits. -/
def isDigits (cs : List Char) : Bool := cs.all (·.isDigit)

/-- Drop one leading minus sign. -/
def stripMinus : List Char → List Char
  | [] => []
  | c :: r => if c = '-' then r else c :: r

/-- The fixed-point three-decimals shape described above. -/
def fixed3 (s : String) : Bool :=
  match splitAtDot (stripMinus s.data) with
  | some (a, b) => !a.isEmpty && isDigits a && isDigits b && decide (b.length = 3)
  | none => false

example : daysFromCivil 1970 1 1 = 0 := rfl

example : daysFromCivil 2000 3 1 = 11017 := rfl

example : civilFromDays 11017 = ⟨2000, 3, 1⟩ := rfl

example : civilFromDays (-1) = ⟨1969, 12, 31⟩ := rfl

example :
    specUtcCalendarDate ⟨⟨2025, 6, 22⟩, 23, 0, 0, 0, some (-300)⟩ = ⟨2025, 6, 23⟩ := rfl

example :
    specUtcCalendarDate ⟨⟨2025, 6, 22⟩, 13, 57, 32, 0, some 0⟩ = ⟨2025, 6, 22⟩ := rfl

example :
    specUtcCalendarDate ⟨⟨2025, 1, 1⟩, 0, 30, 0, 0, some 60⟩ = ⟨2024, 12, 31⟩ := rfl

example : fixed3 "0.200" = true := rfl

example : fixed3 "-12.345" = true := rfl

example : fixed3 "1.2" = false := rfl

example : fixed3 "1e-3" = false := rfl

example : fixed3 ".200" = false := rfl

/-! ### Well-formedness of modelled Python values -/

/-- A `JVal` is well formed when its numbers denote rationals (positive
denominator); every value occurring in a real Python process is well formed. -/
def JVal.wf : JVal → Bool
  | .num q => decide (0 < q.den)
  | _ => true

/-- The `response_time` field of a record, when a number, denotes a
rational. -/
def rtWf (log : LogEntry) : Bool :=
  match getField log "response_time" with
  | some (.num q) => decide (0 < q.den)
  | _ => true

/-- The `url` field of a record is a string or absent. -/
def urlTyped (log : LogEntry) : Bool :=
  match getField log "url" with
  | none => true
  | some (.str _) => true
  | some _ => false

/-- The `response_time` field of a record is numeric (denoting a rational),
null, or absent. -/
def rtTyped (log : LogEntry) : Bool :=
  match getField log "response_time" with
  | none => true
  | some .null => true
  | some (.num q) => decide (0 < q.den)
  | some _ => false

/-- Look a key up in the `endpoint_stats` insertion-ordered dict. -/
def lookupStat : List (JVal × StatAcc) → JVal → Option StatAcc
  | [], _ => none
  | (k, a) :: rest, u => if k = u then some a else lookupStat rest u

/-- The count of an optional accumulator, zero when absent. -/
def baseCount : Option StatAcc → Nat
  | none => 0
  | some a => a.count

/-- The exact total of an optional accumulator, zero when absent. -/
def baseSum : Option StatAcc → ℚ
  | none => 0
  | some a => a.total.toRat

/-! ### Arithmetic lemmas for `PyNum` -/

theorem PyNum.toRat_ofInt (n : Int) : (PyNum.ofInt n).toRat = (n : ℚ) := by
  simp [PyNum.ofInt, PyNum.toRat]

theorem PyNum.add_den_pos {a b : PyNum} (ha : 0 < a.den) (hb : 0 < b.den) :
    0 < (a.add b).den := by
  show 0 < a.den * b.den
  exact mul_pos ha hb

theorem PyNum.toRat_add {a b : PyNum} (ha : 0 < a.den) (hb : 0 < b.den) :
    (a.add b).toRat = a.toRat + b.toRat := by
  have ha2 : (a.den : ℚ) ≠ 0 := Int.cast_ne_zero.mpr (by omega)
  have hb2 : (b.den : ℚ) ≠ 0 := Int.cast_ne_zero.mpr (by omega)
  simp only [PyNum.add, PyNum.toRat]
  push_cast
  field_simp
  try ring

theorem PyNum.div_den_pos {a b : PyNum} (ha : 0 < a.den) (hb : b.num ≠ 0) :
    0 < (a.div b).den := by
  rcases lt_trichotomy b.num 0 with h | h | h
  · simp only [PyNum.div, if_pos h]
    show 0 < a.den * (-b.num)
    exact mul_pos ha (by omega)
  · exact absurd h hb
  · simp only [PyNum.div, if_neg (by omega : ¬ b.num < 0)]
    show 0 < a.den * b.num
    exact mul_pos ha h

theorem PyNum.toRat_div {a b : PyNum} (ha : 0 < a.den) (hb : 0 < b.den)
    (hbn : b.num ≠ 0) : (a.div b).toRat = a.toRat / b.toRat := by
  have ha2 : (a.den : ℚ) ≠ 0 := Int.cast_ne_zero.mpr (by omega)
  have hb2 : (b.den : ℚ) ≠ 0 := Int.cast_ne_zero.mpr (by omega)
  have hbn2 : (b.num : ℚ) ≠ 0 := Int.cast_ne_zero.mpr hbn
  by_cases h : b.num < 0
  · simp only [PyNum.div, if_pos h, PyNum.toRat]
    push_cast
    field_simp
    try ring
  · simp only [PyNum.div, if_neg h, PyNum.toRat]
    push_cast
    field_simp
    try ring

/-! ### Lemmas about `lookupStat` and `updStats` -/

theorem lookupStat_mem {stats : List (JVal × StatAcc)} {u : JVal} {a : StatAcc}
    (h : lookupStat stats u = some a) : (u, a) ∈ stats := by
  induction stats with
  | nil => simp [lookupStat] at h
  | cons hd tl ih =>
    obtain ⟨k, b⟩ := hd
    simp only [lookupStat] at h
    split at h
    · rename_i hk
      subst hk
      injection h with h2
      subst h2
      exact List.mem_cons_self _ _
    · exact List.mem_cons_of_mem _ (ih h)

theorem lookupStat_eq_none_iff {stats : List (JVal × StatAcc)} {u : JVal} :
    lookupStat stats u = none ↔ u ∉ stats.map Prod.fst := by
  induction stats with
  | nil => simp [lookupStat]
  | cons hd tl ih =>
    obtain ⟨k, b⟩ := hd
    by_cases hk : k = u
    · subst hk
      simp [lookupStat]
    · simp only [lookupStat, if_neg hk, List.map_cons, List.mem_cons, ih]
      constructor
      · rintro h (h1 | h2)
        · exact hk h1.symm
        · exact h h2
      · intro h h2
        exact h (Or.inr h2)

theorem lookupStat_of_mem_nodup {stats : List (JVal × StatAcc)} {u : JVal}
    {a : StatAcc} (hmem : (u, a) ∈ stats) (hnd : (stats.map Prod.fst).Nodup) :
    lookupStat stats u = some a := by
  induction stats with
  | nil => simp at hmem
  | cons hd tl ih =>
    obtain ⟨k, b⟩ := hd
    simp only [List.map_cons, List.nodup_cons] at hnd
    rcases List.mem_cons.mp hmem with h | h
    · injection h with h1 h2
      subst h1
      subst h2
      simp [lookupStat]
    · have hku : k ≠ u := by
        intro hk
        subst hk
        exact hnd.1 (List.mem_map_of_mem Prod.fst h)
      simp only [lookupStat, if_neg hku]
      exact ih h hnd.2

/-- The exact total of an optional accumulator as a fraction, the fresh
`0.0` when absent. -/
def baseTotal : Option StatAcc → PyNum
  | none => ⟨0, 1⟩
  | some a => a.total

theorem baseTotal_toRat (o : Option StatAcc) : (baseTotal o).toRat = baseSum o := by
  cases o <;> simp [baseTotal, baseSum, PyNum.toRat]

theorem baseTotal_den_pos {stats : List (JVal × StatAcc)} {u : JVal}
    (hinv : ∀ it ∈ stats, 0 < it.2.count ∧ 0 < it.2.total.den) :
    0 < (baseTotal (lookupStat stats u)).den := by
  cases h : lookupStat stats u with
  | none => simp [baseTotal]
  | some a => exact (hinv (u, a) (lookupStat_mem h)).2

theorem pyAddRT_ok {t : PyNum} {r : JVal} {t2 : PyNum}
    (h : pyAddRT t r = .ok t2) : t2 = t.add (numVal r) := by
  cases r with
  | str s => simp [pyAddRT] at h
  | null => simp [pyAddRT] at h
  | num q =>
    simp only [pyAddRT] at h
    injection h with h2
    exact h2.symm
  | bool b =>
    simp only [pyAddRT] at h
    injection h with h2
    exact h2.symm

theorem numVal_den_pos {r : JVal} (hr : r.wf = true) : 0 < (numVal r).den := by
  cases r with
  | str s => exact Int.one_pos
  | null => exact Int.one_pos
  | num q => exact of_decide_eq_true hr
  | bool b => cases b <;> exact Int.one_pos

theorem updStats_lookup_self {stats : List (JVal × StatAcc)} {v r : JVal}
    {s2 : List (JVal × StatAcc)} (h : updStats stats v r = .ok s2) :
    lookupStat s2 v =
      some ⟨baseCount (lookupStat stats v) + 1,
        (baseTotal (lookupStat stats v)).add (numVal r)⟩ := by
  induction stats generalizing s2 with
  | nil =>
    simp only [updStats] at h
    cases hpy : pyAddRT ⟨0, 1⟩ r with
    | ok t =>
      rw [hpy] at h
      injection h with h2
      subst h2
      simp [lookupStat, baseCount, baseTotal, pyAddRT_ok hpy]
    | error e => rw [hpy] at h; cases h
  | cons hd tl ih =>
    obtain ⟨k, a⟩ := hd
    by_cases hk : k = v
    · subst hk
      simp only [updStats, if_pos rfl] at h
      cases hpy : pyAddRT a.total r with
      | ok t =>
        rw [hpy] at h
        injection h with h2
        subst h2
        simp [lookupStat, baseCount, baseTotal, pyAddRT_ok hpy]
      | error e => rw [hpy] at h; cases h
    · simp only [updStats, if_neg hk] at h
      cases hupd : updStats tl v r with
      | ok s =>
        rw [hupd] at h
        injection h with h2
        subst h2
        simp only [lookupStat, if_neg hk]
        exact ih hupd
      | error e => rw [hupd] at h; cases h

theorem updStats_lookup_other {stats : List (JVal × StatAcc)} {v r u : JVal}
    {s2 : List (JVal × StatAcc)} (h : updStats stats v r = .ok s2) (hne : u ≠ v) :
    lookupStat s2 u = lookupStat stats u := by
  induction stats generalizing s2 with
  | nil =>
    simp only [updStats] at h
    cases hpy : pyAddRT ⟨0, 1⟩ r with
    | ok t =>
      rw [hpy] at h
      injection h with h2
      subst h2
      simp [lookupStat, if_neg (Ne.symm hne)]
    | error e => rw [hpy] at h; cases h
  | cons hd tl ih =>
    obtain ⟨k, a⟩ := hd
    by_cases hk : k = v
    · subst hk
      simp only [updStats, if_pos rfl] at h
      cases hpy : pyAddRT a.total r with
      | ok t =>
        rw [hpy] at h
        injection h with h2
        subst h2
        simp [lookupStat, if_neg (fun hx : k = u => hne (hx.symm))]
      | error e => rw [hpy] at h; cases h
    · simp only [updStats, if_neg hk] at h
      cases hupd : updStats tl v r with
      | ok s =>
        rw [hupd] at h
        injection h with h2
        subst h2
        simp only [lookupStat]
        split
        · rfl
        · exact ih hupd
      | error e => rw [hupd] at h; cases h

theorem updStats_keys {stats : List (JVal × StatAcc)} {v r : JVal}
    {s2 : List (JVal × StatAcc)} (h : updStats stats v r = .ok s2) :
    s2.map Prod.fst =
      stats.map Prod.fst ++ (if lookupStat stats v = none then [v] else []) := by
  induction stats generalizing s2 with
  | nil =>
    simp only [updStats] at h
    cases hpy : pyAddRT ⟨0, 1⟩ r with
    | ok t =>
      rw [hpy] at h
      injection h with h2
      subst h2
      simp [lookupStat]
    | error e => rw [hpy] at h; cases h
  | cons hd tl ih =>
    obtain ⟨k, a⟩ := hd
    by_cases hk : k = v
    · subst hk
      simp only [updStats, if_pos rfl] at h
      cases hpy : pyAddRT a.total r with
      | ok t =>
        rw [hpy] at h
        injection h with h2
        subst h2
        simp [lookupStat]
      | error e => rw [hpy] at h; cases h
    · simp only [updStats, if_neg hk] at h
      cases hupd : updStats tl v r with
      | ok s =>
        rw [hupd] at h
        injection h with h2
        subst h2
        simp only [lookupStat, if_neg hk, List.map_cons, ih hupd, List.cons_append]
      | error e => rw [hupd] at h; cases h

theorem updStats_inv {stats : List (JVal × StatAcc)} {v r : JVal}
    {s2 : List (JVal × StatAcc)} (h : updStats stats v r = .ok s2)
    (hr : r.wf = true)
    (hinv : ∀ it ∈ stats, 0 < it.2.count ∧ 0 < it.2.total.den) :
    ∀ it ∈ s2, 0 < it.2.count ∧ 0 < it.2.total.den := by
  induction stats generalizing s2 with
  | nil =>
    simp only [updStats] at h
    cases hpy : pyAddRT ⟨0, 1⟩ r with
    | ok t =>
      rw [hpy] at h
      injection h with h2
      subst h2
      intro it hit
      simp only [List.mem_singleton] at hit
      subst hit
      refine ⟨Nat.one_pos, ?_⟩
      rw [pyAddRT_ok hpy]
      exact PyNum.add_den_pos Int.one_pos (numVal_den_pos hr)
    | error e => rw [hpy] at h; cases h
  | cons hd tl ih =>
    obtain ⟨k, a⟩ := hd
    by_cases hk : k = v
    · subst hk
      simp only [updStats, if_pos rfl] at h
      cases hpy : pyAddRT a.total r with
      | ok t =>
        rw [hpy] at h
        injection h with h2
        subst h2
        intro it hit
        rcases List.mem_cons.mp hit with h3 | h3
        · subst h3
          refine ⟨Nat.succ_pos _, ?_⟩
          rw [pyAddRT_ok hpy]
          exact PyNum.add_den_pos (hinv (k, a) (List.mem_cons_self _ _)).2
            (numVal_den_pos hr)
        · exact hinv it (List.mem_cons_of_mem _ h3)
      | error e => rw [hpy] at h; cases h
    · simp only [updStats, if_neg hk] at h
      cases hupd : updStats tl v r with
      | ok s =>
        rw [hupd] at h
        injection h with h2
        subst h2
        intro it hit
        rcases List.mem_cons.mp hit with h3 | h3
        · subst h3
          exact hinv (k, a) (List.mem_cons_self _ _)
        · exact ih hupd (fun jt hjt => hinv jt (List.mem_cons_of_mem _ hjt)) it h3
      | error e => rw [hupd] at h; cases h

theorem updStats_total_of_num (stats : List (JVal × StatAcc)) (v : JVal)
    (q : PyNum) : ∃ s2, updStats stats v (.num q) = .ok s2 := by
  induction stats with
  | nil => exact ⟨_, rfl⟩
  | cons hd tl ih =>
    obtain ⟨k, a⟩ := hd
    by_cases hk : k = v
    · subst hk
      exact ⟨(k, ⟨a.count + 1, a.total.add q⟩) :: tl, by simp [updStats, pyAddRT]⟩
    · obtain ⟨s, hs⟩ := ih
      exact ⟨(k, a) :: s, by simp [updStats, if_neg hk, hs]⟩

theorem contribCount_cons (u : JVal) (log : LogEntry) (rest : List LogEntry) :
    contribCount u (log :: rest) =
      (if contributes u log = true then 1 else 0) + contribCount u rest := by
  by_cases h : contributes u log = true <;>
    simp [contribCount, List.filter_cons, h] <;> omega

theorem contribRatSum_cons (u : JVal) (log : LogEntry) (rest : List LogEntry) :
    contribRatSum u (log :: rest) =
      (if contributes u log = true then rtRat log else 0) + contribRatSum u rest := by
  by_cases h : contributes u log = true <;>
    simp [contribRatSum, List.filter_cons, h]

theorem baseCount_some (a : StatAcc) : baseCount (some a) = a.count := rfl

theorem baseSum_some (a : StatAcc) : baseSum (some a) = a.total.toRat := rfl

/-- The workhorse: after a successful aggregation pass the accumulator of any
key `u` counts exactly the contributing records and totals exactly their
response times (relative to the starting accumulator). -/
theorem buildStats_lookup (u : JVal) :
    ∀ (logs : List LogEntry) (acc out : List (JVal × StatAcc)),
      buildStats logs acc = .ok out →
      (∀ log ∈ logs, rtWf log = true) →
      (∀ it ∈ acc, 0 < it.2.count ∧ 0 < it.2.total.den) →
      ((lookupStat acc u = none ∧ contribCount u logs = 0 ∧
          lookupStat out u = none) ∨
        (∃ a, lookupStat out u = some a ∧ 0 < a.count ∧ 0 < a.total.den ∧
          a.count = baseCount (lookupStat acc u) + contribCount u logs ∧
          a.total.toRat = baseSum (lookupStat acc u) + contribRatSum u logs))
  | [], acc, out, h, _hrt, hinv => by
    simp only [buildStats] at h
    injection h with h2
    subst h2
    cases hacc : lookupStat acc u with
    | none => exact Or.inl ⟨rfl, rfl, rfl⟩
    | some b =>
      refine Or.inr ⟨b, rfl, (hinv (u, b) (lookupStat_mem hacc)).1,
        (hinv (u, b) (lookupStat_mem hacc)).2, ?_, ?_⟩
      · simp [baseCount, contribCount]
      · simp [baseSum, contribRatSum]
  | log :: rest, acc, out, h, hrt, hinv => by
    have hrt_rest : ∀ l ∈ rest, rtWf l = true :=
      fun l hl => hrt l (List.mem_cons_of_mem _ hl)
    cases hu : getField log "url" with
    | none =>
      simp only [buildStats, hu] at h
      have hc : contributes u log = false := by simp [contributes, hu]
      have hih := buildStats_lookup u rest acc out h hrt_rest hinv
      simpa [contribCount_cons, contribRatSum_cons, hc] using hih
    | some v =>
      cases hr : getField log "response_time" with
      | none =>
        simp only [buildStats, hu, hr] at h
        have hc : contributes u log = false := by simp [contributes, hu, hr]
        have hih := buildStats_lookup u rest acc out h hrt_rest hinv
        simpa [contribCount_cons, contribRatSum_cons, hc] using hih
      | some r =>
        cases hg : v.truthy && r.isNotNull with
        | false =>
          simp only [buildStats, hu, hr, hg, Bool.false_eq_true, if_false] at h
          have hc : contributes u log = false := by
            rcases Bool.and_eq_false_iff.mp hg with h1 | h1 <;>
              simp [contributes, hu, hr, h1]
          have hih := buildStats_lookup u rest acc out h hrt_rest hinv
          simpa [contribCount_cons, contribRatSum_cons, hc] using hih
        | true =>
          simp only [buildStats, hu, hr, hg, if_true] at h
          cases hupd : updStats acc v r with
          | error e => rw [hupd] at h; cases h
          | ok s2 =>
            rw [hupd] at h
            have hrwf : r.wf = true := by
              have h5 := hrt log (List.mem_cons_self _ _)
              simp only [rtWf, hr] at h5
              cases r <;> simpa [JVal.wf] using h5
            have hinv2 : ∀ it ∈ s2, 0 < it.2.count ∧ 0 < it.2.total.den :=
              updStats_inv hupd hrwf hinv
            have hih := buildStats_lookup u rest s2 out h hrt_rest hinv2
            by_cases huv : u = v
            · subst huv
              have hc : contributes u log = true := by
                simp [contributes, hu, hr, hg]
              have hself := updStats_lookup_self hupd
              rcases hih with ⟨hnone, _, _⟩ | ⟨a, ha, hpos, hden, hcount, hsum⟩
              · rw [hself] at hnone; cases hnone
              · refine Or.inr ⟨a, ha, hpos, hden, ?_, ?_⟩
                · have hbc : baseCount (lookupStat s2 u) =
                      baseCount (lookupStat acc u) + 1 := by
                    rw [hself]; rfl
                  rw [hbc] at hcount
                  rw [contribCount_cons, if_pos hc]
                  omega
                · have hbs : baseSum (lookupStat s2 u) =
                      baseSum (lookupStat acc u) + (numVal r).toRat := by
                    rw [hself]
                    show ((baseTotal (lookupStat acc u)).add (numVal r)).toRat = _
                    rw [PyNum.toRat_add (baseTotal_den_pos hinv)
                      (numVal_den_pos hrwf), baseTotal_toRat]
                  rw [hbs] at hsum
                  rw [contribRatSum_cons, if_pos hc]
                  have hrr : rtRat log = (numVal r).toRat := by simp [rtRat, hr]
                  rw [hrr]
                  linarith
            · have hc : contributes u log = false := by
                have hvu : v ≠ u := fun hx => huv hx.symm
                simp [contributes, hu, hr, hvu]
              have hoth := updStats_lookup_other hupd huv
              rw [hoth] at hih
              simpa [contribCount_cons, contribRatSum_cons, hc] using hih

/-- Aggregation keeps the dict keys distinct. -/
theorem buildStats_nodup :
    ∀ (logs : List LogEntry) (acc out : List (JVal × StatAcc)),
      buildStats logs acc = .ok out → (acc.map Prod.fst).Nodup →
      (out.map Prod.fst).Nodup
  | [], acc, out, h, hnd => by
    simp only [buildStats] at h
    injection h with h2
    subst h2
    exact hnd
  | log :: rest, acc, out, h, hnd => by
    cases hu : getField log "url" with
    | none =>
      simp only [buildStats, hu] at h
      exact buildStats_nodup rest acc out h hnd
    | some v =>
      cases hr : getField log "response_time" with
      | none =>
        simp only [buildStats, hu, hr] at h
        exact buildStats_nodup rest acc out h hnd
      | some r =>
        cases hg : v.truthy && r.isNotNull with
        | false =>
          simp only [buildStats, hu, hr, hg, Bool.false_eq_true, if_false] at h
          exact buildStats_nodup rest acc out h hnd
        | true =>
          simp only [buildStats, hu, hr, hg, if_true] at h
          cases hupd : updStats acc v r with
          | error e => rw [hupd] at h; cases h
          | ok s2 =>
            rw [hupd] at h
            refine buildStats_nodup rest s2 out h ?_
            rw [updStats_keys hupd]
            by_cases hv : lookupStat acc v = none
            · rw [if_pos hv]
              have hvnot : v ∉ acc.map Prod.fst := lookupStat_eq_none_iff.mp hv
              simp [List.nodup_append, hnd, hvnot]
            · rw [if_neg hv]
              simpa using hnd

/-- Aggregation succeeds on any store whose response times are numeric, null,
or absent. -/
theorem buildStats_total :
    ∀ (logs : List LogEntry) (acc : List (JVal × StatAcc)),
      (∀ log ∈ logs, rtTyped log = true) →
      ∃ out, buildStats logs acc = .ok out
  | [], acc, _ => ⟨acc, rfl⟩
  | log :: rest, acc, hty => by
    have hty_rest : ∀ l ∈ rest, rtTyped l = true :=
      fun l hl => hty l (List.mem_cons_of_mem _ hl)
    cases hu : getField log "url" with
    | none =>
      obtain ⟨out, hout⟩ := buildStats_total rest acc hty_rest
      exact ⟨out, by simp only [buildStats, hu]; exact hout⟩
    | some v =>
      cases hr : getField log "response_time" with
      | none =>
        obtain ⟨out, hout⟩ := buildStats_total rest acc hty_rest
        exact ⟨out, by simp only [buildStats, hu, hr]; exact hout⟩
      | some r =>
        cases hg : v.truthy && r.isNotNull with
        | false =>
          obtain ⟨out, hout⟩ := buildStats_total rest acc hty_rest
          refine ⟨out, ?_⟩
          simp only [buildStats, hu, hr, hg, Bool.false_eq_true, if_false]
          exact hout
        | true =>
          have h5 := hty log (List.mem_cons_self _ _)
          simp only [rtTyped, hr] at h5
          have hnn : r.isNotNull = true := by
            rw [Bool.and_eq_true] at hg
            exact hg.2
          obtain ⟨q, rfl⟩ : ∃ q, r = .num q := by
            cases r with
            | num q => exact ⟨q, rfl⟩
            | null => simp [JVal.isNotNull] at hnn
            | str s => simp at h5
            | bool b => simp at h5
          obtain ⟨s2, hs2⟩ := updStats_total_of_num acc v q
          obtain ⟨out, hout⟩ := buildStats_total rest s2 hty_rest
          refine ⟨out, ?_⟩
          simp only [buildStats, hu, hr, hg, if_true, hs2]
          exact hout

theorem isNotNone_some (r : JVal) : isNotNone (some r) = r.isNotNull := by
  cases r <;> rfl

/-- If no record has both a truthy url and a non-null response time, the
aggregation loop leaves the accumulator untouched. -/
theorem buildStats_all_skip :
    ∀ (logs : List LogEntry) (acc : List (JVal × StatAcc)),
      (∀ log ∈ logs, ¬(optTruthy (getField log "url") = true ∧
        isNotNone (getField log "response_time") = true)) →
      buildStats logs acc = .ok acc
  | [], _, _ => rfl
  | log :: rest, acc, hskip => by
    have hs := hskip log (List.mem_cons_self _ _)
    have hrest : ∀ l ∈ rest, ¬(optTruthy (getField l "url") = true ∧
        isNotNone (getField l "response_time") = true) :=
      fun l hl => hskip l (List.mem_cons_of_mem _ hl)
    cases hu : getField log "url" with
    | none =>
      simp only [buildStats, hu]
      exact buildStats_all_skip rest acc hrest
    | some v =>
      cases hr : getField log "response_time" with
      | none =>
        simp only [buildStats, hu, hr]
        exact buildStats_all_skip rest acc hrest
      | some r =>
        have hg : (v.truthy && r.isNotNull) = false := by
          rw [hu, hr, isNotNone_some] at hs
          have hs2 : ¬(v.truthy = true ∧ r.isNotNull = true) := by
            simpa [optTruthy] using hs
          rcases Bool.eq_false_or_eq_true (v.truthy && r.isNotNull) with h | h
          · rw [Bool.and_eq_true] at h
            exact absurd h hs2
          · exact h
        simp only [buildStats, hu, hr, hg, Bool.false_eq_true, if_false]
        exact buildStats_all_skip rest acc hrest

theorem contrib_pos_exists {u : JVal} {logs : List LogEntry}
    (h : 0 < contribCount u logs) : ∃ log ∈ logs, contributes u log = true := by
  have h2 : logs.filter (contributes u) ≠ [] := by
    intro hnil
    rw [contribCount, hnil] at h
    simp at h
  obtain ⟨log, hlog⟩ := List.exists_mem_of_ne_nil _ h2
  exact ⟨log, (List.mem_filter.mp hlog).1, (List.mem_filter.mp hlog).2⟩

theorem contributes_url_eq {u : JVal} {log : LogEntry}
    (h : contributes u log = true) :
    getField log "url" = some u ∧ u.truthy = true := by
  cases hu : getField log "url" with
  | none => simp [contributes, hu] at h
  | some v =>
    cases hr : getField log "response_time" with
    | none => simp [contributes, hu, hr] at h
    | some r =>
      simp only [contributes, hu, hr, Bool.and_eq_true, decide_eq_true_eq] at h
      have hvu : v = u := h.1.1
      have hvt : v.truthy = true := h.1.2
      subst hvu
      exact ⟨rfl, hvt⟩

/-- Every key of the aggregation dict is either an initial key or the truthy
url of one of the processed records. -/
theorem buildStats_keys_sub :
    ∀ (logs : List LogEntry) (acc out : List (JVal × StatAcc)),
      buildStats logs acc = .ok out →
      ∀ k ∈ out.map Prod.fst, k ∈ acc.map Prod.fst ∨
        ∃ log ∈ logs, getField log "url" = some k ∧ k.truthy = true
  | [], acc, out, h, k, hk => by
    simp only [buildStats] at h
    injection h with h2
    subst h2
    exact Or.inl hk
  | log :: rest, acc, out, h, k, hk => by
    have hlift : (∃ l ∈ rest, getField l "url" = some k ∧ k.truthy = true) →
        ∃ l ∈ log :: rest, getField l "url" = some k ∧ k.truthy = true :=
      fun ⟨l, hl, hp⟩ => ⟨l, List.mem_cons_of_mem _ hl, hp⟩
    cases hu : getField log "url" with
    | none =>
      simp only [buildStats, hu] at h
      exact (buildStats_keys_sub rest acc out h k hk).imp id hlift
    | some v =>
      cases hr : getField log "response_time" with
      | none =>
        simp only [buildStats, hu, hr] at h
        exact (buildStats_keys_sub rest acc out h k hk).imp id hlift
      | some r =>
        cases hg : v.truthy && r.isNotNull with
        | false =>
          simp only [buildStats, hu, hr, hg, Bool.false_eq_true, if_false] at h
          exact (buildStats_keys_sub rest acc out h k hk).imp id hlift
        | true =>
          simp only [buildStats, hu, hr, hg, if_true] at h
          cases hupd : updStats acc v r with
          | error e => rw [hupd] at h; cases h
          | ok s2 =>
            rw [hupd] at h
            rcases buildStats_keys_sub rest s2 out h k hk with hin | hrest
            · rw [updStats_keys hupd] at hin
              rcases List.mem_append.mp hin with hin2 | hin2
              · exact Or.inl hin2
              · have hkv : k = v := by
                  by_cases hcond : lookupStat acc v = none
                  · rw [if_pos hcond] at hin2
                    simpa using hin2
                  · rw [if_neg hcond] at hin2
                    simp at hin2
                subst hkv
                refine Or.inr ⟨log, List.mem_cons_self _ _, hu, ?_⟩
                rw [Bool.and_eq_true] at hg
                exact hg.1
            · exact Or.inr (hlift hrest)

/-- With string-or-absent urls, every aggregation key is a string. -/
theorem buildStats_keys_str {logs : List LogEntry}
    {out : List (JVal × StatAcc)} (h : buildStats logs [] = .ok out)
    (hurl : ∀ log ∈ logs, urlTyped log = true) :
    out.all isStrKey = true := by
  rw [List.all_eq_true]
  intro it hit
  obtain ⟨k, a2⟩ := it
  rcases buildStats_keys_sub logs [] out h k (List.mem_map_of_mem Prod.fst hit) with
    hin | ⟨log, hmem, hu, _⟩
  · simp at hin
  · have hut := hurl log hmem
    simp only [urlTyped, hu] at hut
    cases k with
    | str s => simp [isStrKey]
    | num q => simp at hut
    | bool b => simp at hut
    | null => simp at hut

/-! ### The sort order on string keys is total and transitive -/

theorem charsLe_total : ∀ a b : List Char, charsLe a b = true ∨ charsLe b a = true
  | [], _ => Or.inl rfl
  | _ :: _, [] => Or.inr rfl
  | a :: as, b :: bs => by
    rcases Nat.lt_trichotomy a.toNat b.toNat with h | h | h
    · exact Or.inl (by simp [charsLe, h])
    · have h1 : ¬ a.toNat < b.toNat := by omega
      have h2 : ¬ b.toNat < a.toNat := by omega
      rcases charsLe_total as bs with hab | hba
      · exact Or.inl (by simp [charsLe, h1, h2, hab])
      · exact Or.inr (by simp [charsLe, h1, h2, hba])
    · exact Or.inr (by simp [charsLe, h])

theorem charsLe_trans :
    ∀ a b c : List Char, charsLe a b = true → charsLe b c = true →
      charsLe a c = true
  | [], _, _, _, _ => rfl
  | _ :: _, [], _, hab, _ => by simp [charsLe] at hab
  | _ :: _, _ :: _, [], _, hbc => by simp [charsLe] at hbc
  | a :: as, b :: bs, c :: cs, hab, hbc => by
    simp only [charsLe] at hab hbc ⊢
    split_ifs at hab hbc ⊢ <;>
      first
      | rfl
      | omega
      | exact charsLe_trans as bs cs hab hbc
      | exact (Bool.false_ne_true hab).elim
      | exact (Bool.false_ne_true hbc).elim

instance : IsTotal (JVal × StatAcc) strItemLe :=
  ⟨fun a b => charsLe_total (keyStr a.1).data (keyStr b.1).data⟩

instance : IsTrans (JVal × StatAcc) strItemLe :=
  ⟨fun _ _ _ hab hbc => charsLe_trans _ _ _ hab hbc⟩

/-- On all-string keys `sorted(...)` is the sort by the string order. -/
theorem sortItems_str {items : List (JVal × StatAcc)}
    (hall : items.all isStrKey = true) :
    sortItems items = .ok (items.insertionSort strItemLe) := by
  simp [sortItems, hall]

theorem sortItems_mem {items sorted : List (JVal × StatAcc)}
    (h : sortItems items = .ok sorted) :
    ∀ it, it ∈ sorted ↔ it ∈ items := by
  unfold sortItems at h
  split at h
  · injection h with h2
    subst h2
    intro it
    exact List.mem_insertionSort strItemLe
  · split at h
    · injection h with h2
      subst h2
      intro it
      exact List.mem_insertionSort numItemLe
    · cases h

theorem sortItems_keys_nodup {items sorted : List (JVal × StatAcc)}
    (h : sortItems items = .ok sorted) (hnd : (items.map Prod.fst).Nodup) :
    (sorted.map Prod.fst).Nodup := by
  unfold sortItems at h
  split at h
  · injection h with h2
    subst h2
    exact (((List.perm_insertionSort strItemLe items).map Prod.fst).nodup_iff).mpr hnd
  · split at h
    · injection h with h2
      subst h2
      exact (((List.perm_insertionSort numItemLe items).map Prod.fst).nodup_iff).mpr hnd
    · cases h

theorem sortItems_sorted_of_str {items sorted : List (JVal × StatAcc)}
    (hall : items.all isStrKey = true) (h : sortItems items = .ok sorted) :
    List.Pairwise strItemLe sorted := by
  rw [sortItems_str hall] at h
  injection h with h2
  subst h2
  exact List.sorted_insertionSort strItemLe items

/-! ### The rendered average always has exactly three decimals -/

theorem digitChar_isDigit {d : Nat} (h : d < 10) :
    (Nat.digitChar d).isDigit = true := by
  interval_cases d <;> decide

theorem natDigitsAux_digits : ∀ (fuel n : Nat), isDigits (natDigitsAux fuel n) = true
  | 0, _ => rfl
  | fuel + 1, n => by
    simp only [natDigitsAux]
    split
    · rename_i h
      simp [isDigits, digitChar_isDigit h]
    · rename_i h
      have h1 := natDigitsAux_digits fuel (n / 10)
      have h2 : (n % 10) < 10 := Nat.mod_lt _ (by omega)
      simp only [isDigits, List.all_append] at h1 ⊢
      simp [h1, digitChar_isDigit h2]

theorem natDigits_digits (n : Nat) : isDigits (natDigits n) = true :=
  natDigitsAux_digits _ _

theorem natDigits_ne_nil (n : Nat) : natDigits n ≠ [] := by
  unfold natDigits natDigitsAux
  split
  · simp
  · simp

theorem pad3_digits (m : Nat) : isDigits (pad3 m) = true := by
  have h1 : m / 100 % 10 < 10 := Nat.mod_lt _ (by omega)
  have h2 : m / 10 % 10 < 10 := Nat.mod_lt _ (by omega)
  have h3 : m % 10 < 10 := Nat.mod_lt _ (by omega)
  simp [pad3, isDigits, digitChar_isDigit h1, digitChar_isDigit h2,
    digitChar_isDigit h3]

theorem splitAtDot_append {a : List Char} (b : List Char)
    (ha : isDigits a = true) : splitAtDot (a ++ '.' :: b) = some (a, b) := by
  induction a with
  | nil => simp [splitAtDot]
  | cons c cs ih =>
    simp only [isDigits, List.all_cons, Bool.and_eq_true] at ha
    have hcd : c ≠ '.' := by
      intro hc
      rw [hc] at ha
      exact absurd ha.1 (by decide)
    simp only [List.cons_append, splitAtDot, if_neg hcd]
    simp [List.append_eq, ih ha.2]

theorem fixed3_format3 (p : PyNum) : fixed3 (format3 p) = true := by
  unfold format3
  set n := roundHalfEven (p.num * 1000) p.den with hn
  set m := n.natAbs with hm
  set A := natDigits (m / 1000) with hA
  set B := pad3 (m % 1000) with hB
  have hAd : isDigits A = true := natDigits_digits _
  have hAne : A ≠ [] := natDigits_ne_nil _
  have hBd : isDigits B = true := pad3_digits _
  have hBlen : B.length = 3 := rfl
  obtain ⟨c, cs, hcs⟩ : ∃ c cs, A = c :: cs := by
    cases hx : A with
    | nil => exact absurd hx hAne
    | cons c cs => exact ⟨c, cs, rfl⟩
  have hstrip : stripMinus ((if n < 0 then ['-'] else []) ++ A ++ '.' :: B) =
      A ++ '.' :: B := by
    by_cases hneg : n < 0
    · simp [hneg, stripMinus]
    · simp only [if_neg hneg, List.nil_append]
      have hcd : c ≠ '-' := by
        intro hcon
        rw [hcs] at hAd
        simp only [isDigits, List.all_cons, Bool.and_eq_true] at hAd
        rw [hcon] at hAd
        exact absurd hAd.1 (by decide)
      rw [hcs]
      simp [stripMinus, if_neg hcd]
  unfold fixed3
  rw [show (⟨(if n < 0 then ['-'] else []) ++ A ++ '.' :: B⟩ : String).data =
      (if n < 0 then ['-'] else []) ++ A ++ '.' :: B from rfl]
  rw [hstrip, splitAtDot_append B hAd]
  rw [hcs] at hAd
  simp [hcs, hAd, hBd, hBlen]

/-! ### Inverting a successful report -/

theorem generate_average_report_ok {logs : List LogEntry} {rows : List StatRow}
    (h : generate_average_report logs = .ok rows) :
    ∃ stats sorted, buildStats logs [] = .ok stats ∧
      sortItems stats = .ok sorted ∧ rows = sorted.map mkRow := by
  unfold generate_average_report at h
  cases hbs : buildStats logs [] with
  | error e =>
    simp only [hbs] at h
    exact Except.noConfusion h
  | ok stats =>
    cases hsi : sortItems stats with
    | error e =>
      simp only [hbs, hsi] at h
      exact Except.noConfusion h
    | ok sorted =>
      simp only [hbs, hsi, Except.ok.injEq] at h
      exact ⟨stats, sorted, rfl, hsi, h.symm⟩

/-- Main grouping correctness: in a successful report over a store of
well-formed values, a row for key `u` exists exactly when some record
contributes to `u`; that row counts the contributing records, its count is
positive, and its average cell is the 3-decimal rendering of the exact sum
of contributing response times divided by the count. -/
theorem generate_average_report_groups (logs : List LogEntry)
    (rows : List StatRow) (u : JVal)
    (hok : generate_average_report logs = .ok rows)
    (hwf : ∀ log ∈ logs, rtWf log = true) :
    ((∃ row ∈ rows, row.url = u) ↔ 0 < contribCount u logs) ∧
    (∀ row ∈ rows, row.url = u →
      row.total = contribCount u logs ∧ 0 < row.total ∧
      ∃ p : PyNum, row.avg = format3 p ∧
        p.toRat = contribRatSum u logs / (contribCount u logs : ℚ)) := by
  obtain ⟨stats, sorted, hbs, hsi, hrows⟩ := generate_average_report_ok hok
  have hnd : (stats.map Prod.fst).Nodup := buildStats_nodup logs [] stats hbs (by simp)
  have hmem := sortItems_mem hsi
  have hwork := buildStats_lookup u logs [] stats hbs hwf (by simp)
  subst hrows
  constructor
  · constructor
    · rintro ⟨row, hrow, hurl⟩
      obtain ⟨it, hit, hmk⟩ := List.mem_map.mp hrow
      have hit1 : it.1 = u := by rw [← hurl, ← hmk]; rfl
      have hitS : it ∈ stats := (hmem it).mp hit
      have hlk : lookupStat stats u ≠ none := by
        intro hnone
        exact (lookupStat_eq_none_iff.mp hnone)
          (hit1 ▸ List.mem_map_of_mem Prod.fst hitS)
      rcases hwork with ⟨_, _, hn⟩ | ⟨a, _, hpos, _, hcount, _⟩
      · exact absurd hn hlk
      · simp only [lookupStat, baseCount] at hcount
        omega
    · intro hcc
      rcases hwork with ⟨_, hc0, _⟩ | ⟨a, ha, _, _, _, _⟩
      · omega
      · have hmemS : (u, a) ∈ stats := lookupStat_mem ha
        have hmemSorted : (u, a) ∈ sorted := (hmem _).mpr hmemS
        exact ⟨mkRow (u, a), List.mem_map_of_mem mkRow hmemSorted, rfl⟩
  · intro row hrow hurl
    obtain ⟨it, hit, hmk⟩ := List.mem_map.mp hrow
    obtain ⟨k, a⟩ := it
    have hk : k = u := by rw [← hurl, ← hmk]; rfl
    subst hk
    have hitS : (k, a) ∈ stats := (hmem _).mp hit
    have hlook : lookupStat stats k = some a := lookupStat_of_mem_nodup hitS hnd
    rcases hwork with ⟨_, _, hn⟩ | ⟨a2, ha2, hpos2, hden2, hcount2, hsum2⟩
    · rw [hlook] at hn; cases hn
    · have haa : a = a2 := by
        rw [hlook] at ha2
        injection ha2
      subst haa
      simp only [lookupStat, baseCount, baseSum] at hcount2 hsum2
      have hcount3 : a.count = contribCount k logs := by omega
      have hsum3 : a.total.toRat = contribRatSum k logs := by
        rw [hsum2]
        ring
      refine ⟨?_, ?_, ?_⟩
      · rw [← hmk]
        exact hcount3
      · rw [← hmk]
        exact hpos2
      · refine ⟨a.total.div (.ofInt a.count), by rw [← hmk]; rfl, ?_⟩
        have hcne : ((a.count : Int)) ≠ 0 := Int.natCast_ne_zero.mpr (by omega)
        rw [PyNum.toRat_div hden2 Int.one_pos hcne, PyNum.toRat_ofInt]
        rw [hsum3, hcount3]
        norm_num

theorem rtWf_of_rtTyped {log : LogEntry} (h : rtTyped log = true) :
    rtWf log = true := by
  unfold rtTyped at h
  unfold rtWf
  cases hx : getField log "response_time" with
  | none => simp
  | some r =>
    cases r <;> simp_all

/-- Totality of the report pipeline on stores with string-or-absent urls and
numeric-or-null-or-absent response times. -/
theorem report_total (logs : List LogEntry)
    (hurl : ∀ log ∈ logs, urlTyped log = true)
    (hrt : ∀ log ∈ logs, rtTyped log = true) :
    ∃ rows, generate_average_report logs = .ok rows ∧
      (∀ row ∈ rows, 0 < row.total ∧ ∃ s, row.url = .str s) ∧
      ∃ out, generate_report ⟨logs⟩ "average" = .ok (some out) := by
  have hwf : ∀ log ∈ logs, rtWf log = true :=
    fun l hl => rtWf_of_rtTyped (hrt l hl)
  obtain ⟨stats, hbs⟩ := buildStats_total logs [] hrt
  have hall := buildStats_keys_str hbs hurl
  have hsi := sortItems_str hall
  have hok : generate_average_report logs =
      .ok ((stats.insertionSort strItemLe).map mkRow) := by
    unfold generate_average_report
    simp only [hbs, hsi]
  refine ⟨_, hok, ?_, ?_⟩
  · intro row hrow
    obtain ⟨it, hit, hmk⟩ := List.mem_map.mp hrow
    obtain ⟨k, a⟩ := it
    have hitStats : (k, a) ∈ stats := (sortItems_mem hsi (k, a)).mp hit
    constructor
    · have hnd : (stats.map Prod.fst).Nodup :=
        buildStats_nodup logs [] stats hbs (by simp)
      have hlook := lookupStat_of_mem_nodup hitStats hnd
      rcases buildStats_lookup k logs [] stats hbs hwf (by simp) with
        ⟨_, _, hn⟩ | ⟨a2, ha2, hpos2, _, _, _⟩
      · rw [hlook] at hn; cases hn
      · have haa : a = a2 := by
          rw [hlook] at ha2
          injection ha2
        rw [← hmk]
        show 0 < a.count
        rw [haa]
        exact hpos2
    · have hstr := List.all_eq_true.mp hall (k, a) hitStats
      cases k with
      | str s => exact ⟨s, by rw [← hmk]; rfl⟩
      | num q => simp [isStrKey] at hstr
      | bool b => simp [isStrKey] at hstr
      | null => simp [isStrKey] at hstr
  · by_cases he : ((stats.insertionSort strItemLe).map mkRow).isEmpty = true
    · exact ⟨"No data found for the specified criteria.",
        by simp [generate_report, hok, he]⟩
    · exact ⟨tabulateRender ["handler", "total", "avg_response_time"]
        ((stats.insertionSort strItemLe).map mkRow),
        by simp [generate_report, hok, he]⟩

/-- An all-skipped store yields the empty report and the no-data text. -/
theorem report_empty (logs : List LogEntry)
    (hnone : ∀ log ∈ logs, ¬(optTruthy (getField log "url") = true ∧
      isNotNone (getField log "response_time") = true)) :
    generate_average_report logs = .ok [] ∧
    generate_report ⟨logs⟩ "average" =
      .ok (some "No data found for the specified criteria.") := by
  have hbs : buildStats logs [] = .ok [] := buildStats_all_skip logs [] hnone
  have h1 : generate_average_report logs = .ok [] := by
    unfold generate_average_report
    simp only [hbs]
    rfl
  exact ⟨h1, by simp [generate_report, h1]⟩

/-- Sortedness and formatting of a successful report over string urls. -/
theorem report_sorted_formatted (logs : List LogEntry) (rows : List StatRow)
    (hok : generate_average_report logs = .ok rows)
    (hurl : ∀ log ∈ logs, urlTyped log = true) :
    List.Pairwise (fun a b : StatRow => strLe (keyStr a.url) (keyStr b.url) = true)
      rows ∧
    ∀ row ∈ rows, fixed3 row.avg = true := by
  obtain ⟨stats, sorted, hbs, hsi, hrows⟩ := generate_average_report_ok hok
  have hall := buildStats_keys_str hbs hurl
  have hsortd := sortItems_sorted_of_str hall hsi
  subst hrows
  constructor
  · rw [List.pairwise_map]
    exact hsortd
  · intro row hrow
    obtain ⟨it, hit, hmk⟩ := List.mem_map.mp hrow
    rw [← hmk]
    exact fixed3_format3 _

/-- The filter predicate on a parseable string timestamp and a well-formed
filter: the result is exactly the comparison of the written date fields. -/
theorem should_include_of_parse (e : LogEntry) (ts f : String)
    (dt : PyDateTime) (fd : Date)
    (hts : getField e "@timestamp" = some (.str ts))
    (hdt : pyFromisoformat (replaceZ ts) = some dt)
    (hf : pyStrptimeYmd f = some fd) :
    should_include_log e (some f) = .ok (decide (dt.date = fd)) := by
  have hfne : f.isEmpty = false := by
    cases hx : f.isEmpty
    · rfl
    · exfalso
      have h0 : f = "" := (String.isEmpty_iff f).mp hx
      rw [h0, show pyStrptimeYmd "" = none from rfl] at hf
      cases hf
  have htsne : ts.isEmpty = false := by
    cases hx : ts.isEmpty
    · rfl
    · exfalso
      have h0 : ts = "" := (String.isEmpty_iff ts).mp hx
      rw [h0, show replaceZ "" = "" from rfl,
        show pyFromisoformat "" = none from rfl] at hdt
      cases hdt
  have htr : (JVal.str ts).truthy = true := by simp [JVal.truthy, htsne]
  unfold should_include_log
  simp only [hfne, hts, htr, hdt, hf, Bool.false_eq_true, if_false,
    Bool.true_eq_false]

/-- The empty-string filter is falsy, so every record is included. -/
theorem should_include_empty_filter (e : LogEntry) :
    should_include_log e (some "") = .ok true := rfl

/-- A malformed non-empty filter excludes every record whose timestamp value
is a string. -/
theorem should_include_malformed (e : LogEntry) (ts f : String)
    (hts : getField e "@timestamp" = some (.str ts))
    (hf : pyStrptimeYmd f = none) (hne : f ≠ "") :
    should_include_log e (some f) = .ok false := by
  have hfne : f.isEmpty = false := by
    cases hx : f.isEmpty
    · rfl
    · exact absurd ((String.isEmpty_iff f).mp hx) hne
  unfold should_include_log
  simp only [hfne, hts, Bool.false_eq_true, if_false]
  by_cases htr : (JVal.str ts).truthy = false
  · simp [htr]
  · have htr2 : (JVal.str ts).truthy = true := by
      revert htr
      cases (JVal.str ts).truthy <;> simp
    simp only [htr2, Bool.true_eq_false, if_false]
    cases hdt : pyFromisoformat (replaceZ ts) with
    | none => simp [hdt]
    | some dt => simp [hdt, hf]

/-! ### Claim theorems -/

/-- C1, counterexample: for the record with `@timestamp`
`2025-06-22T23:00:00-05:00` and filter `2025-06-23`, the timestamp's calendar
date interpreted in UTC is 2025-06-23 — equal to the filter date — yet
`_should_include_log` returns false, because the code compares the literal
date fields `2025-06-22` (it never normalizes by the UTC offset). -/
theorem c1_utc_counterexample :
    should_include_log [("@timestamp", .str "2025-06-22T23:00:00-05:00")]
        (some "2025-06-23") = .ok false ∧
    (pyFromisoformat (replaceZ "2025-06-22T23:00:00-05:00")).map
        specUtcCalendarDate = some ⟨2025, 6, 23⟩ ∧
    pyStrptimeYmd "2025-06-23" = some ⟨2025, 6, 23⟩ :=
  ⟨rfl, rfl, rfl⟩

/-- C1, amended: for every record whose `@timestamp` is a string parsing as an
ISO-8601 datetime (a trailing `Z` read as `+00:00`) and every date filter in
`YYYY-MM-DD` format, shouldInclude returns true iff the literal calendar-date
fields of the timestamp — as written, ignoring the UTC offset — equal the
filter date; time-of-day and sub-day precision never affect the result. -/
theorem c1_literal_date_filter (e : LogEntry) (ts f : String)
    (dt : PyDateTime) (fd : Date)
    (hts : getField e "@timestamp" = some (.str ts))
    (hdt : pyFromisoformat (replaceZ ts) = some dt)
    (hf : pyStrptimeYmd f = some fd) :
    should_include_log e (some f) = .ok true ↔ dt.date = fd := by
  rw [should_include_of_parse e ts f dt fd hts hdt hf]
  simp

/-- C1, witness: a concrete UTC-offset record included on its own date. -/
theorem c1_literal_date_filter_witness :
    should_include_log [("@timestamp", .str "2025-06-22T13:57:32+00:00")]
      (some "2025-06-22") = .ok true :=
  (c1_literal_date_filter [("@timestamp", .str "2025-06-22T13:57:32+00:00")]
    "2025-06-22T13:57:32+00:00" "2025-06-22"
    ⟨⟨2025, 6, 22⟩, 13, 57, 32, 0, some 0⟩ ⟨2025, 6, 22⟩ rfl rfl rfl).mpr rfl

/-- C2: a present but non-string (truthy) `@timestamp` value makes
`_should_include_log` raise `AttributeError` (from `timestamp.replace`)
instead of returning false — the `except` clause catches only `ValueError`
and `TypeError`. -/
theorem c2_nonstring_timestamp_raises :
    should_include_log [("@timestamp", .num (.ofInt 123))] (some "2025-06-22") =
      .error .attributeError := rfl

/-- C3: a line whose record has a truthy non-string `@timestamp` raises out of
the per-line loop; the error is caught only by the per-file handler, so the
remaining lines of the same file — here a later line whose record parses and
passes the filter — are silently dropped. -/
theorem c3_bad_line_aborts_file :
    load_logs .new
        [("a.log", .content ["\x7b\"@timestamp\": 1\x7d",
          "\x7b\"@timestamp\": \"2025-06-22T10:00:00+00:00\", \"url\": \"/a\"\x7d"])]
        ["a.log"] (some "2025-06-22") = (⟨[]⟩, [.readError "a.log"]) ∧
    jsonLoads "\x7b\"@timestamp\": \"2025-06-22T10:00:00+00:00\", \"url\": \"/a\"\x7d" =
      some [("@timestamp", .str "2025-06-22T10:00:00+00:00"),
        ("url", .str "/a")] ∧
    should_include_log
      [("@timestamp", .str "2025-06-22T10:00:00+00:00"), ("url", .str "/a")]
      (some "2025-06-22") = .ok true :=
  ⟨rfl, rfl, rfl⟩

/-- C4, counterexample: a record with url `""` and non-null `response_time`.
The claim as stated demands a statistic row for the url `""`, but the
aggregation skips falsy urls and produces no row at all. -/
theorem c4_empty_url_counterexample :
    generate_average_report
        [[("url", .str ""), ("response_time", .num ⟨1, 1⟩)]] = .ok [] ∧
    claimHasUrlRT (.str "")
        [[("url", .str ""), ("response_time", .num ⟨1, 1⟩)]].head! = true :=
  ⟨rfl, rfl⟩

/-- C4, amended: for every store of well-formed values on which the report
succeeds, a statistic row for a key `u` exists iff at least one retained
record has the truthy (non-empty) url `u` and a non-null `response_time`;
each such row's count equals the number of those records and is never zero,
and its average cell renders exactly the sum of their response times divided
by that count. -/
theorem c4_groups_amended (logs : List LogEntry) (rows : List StatRow)
    (u : JVal) (hok : generate_average_report logs = .ok rows)
    (hwf : ∀ log ∈ logs, rtWf log = true) :
    ((∃ row ∈ rows, row.url = u) ↔ 0 < contribCount u logs) ∧
    (∀ row ∈ rows, row.url = u →
      row.total = contribCount u logs ∧ 0 < row.total ∧
      ∃ p : PyNum, row.avg = format3 p ∧
        p.toRat = contribRatSum u logs / (contribCount u logs : ℚ)) :=
  generate_average_report_groups logs rows u hok hwf

/-- C4, witness: the two-record `/a` store of the spec's scenario A. -/
theorem c4_groups_amended_witness :
    ((∃ row ∈ [(⟨.str "/a", 2, "0.200"⟩ : StatRow)], row.url = JVal.str "/a") ↔
      0 < contribCount (.str "/a")
        [[("url", .str "/a"), ("response_time", .num ⟨1, 10⟩)],
         [("url", .str "/a"), ("response_time", .num ⟨3, 10⟩)]]) ∧
    (∀ row ∈ [(⟨.str "/a", 2, "0.200"⟩ : StatRow)], row.url = JVal.str "/a" →
      row.total = contribCount (.str "/a")
        [[("url", .str "/a"), ("response_time", .num ⟨1, 10⟩)],
         [("url", .str "/a"), ("response_time", .num ⟨3, 10⟩)]] ∧
      0 < row.total ∧
      ∃ p : PyNum, row.avg = format3 p ∧
        p.toRat = contribRatSum (.str "/a")
            [[("url", .str "/a"), ("response_time", .num ⟨1, 10⟩)],
             [("url", .str "/a"), ("response_time", .num ⟨3, 10⟩)]] /
          (contribCount (.str "/a")
            [[("url", .str "/a"), ("response_time", .num ⟨1, 10⟩)],
             [("url", .str "/a"), ("response_time", .num ⟨3, 10⟩)]] : ℚ)) :=
  c4_groups_amended
    [[("url", .str "/a"), ("response_time", .num ⟨1, 10⟩)],
     [("url", .str "/a"), ("response_time", .num ⟨3, 10⟩)]]
    [⟨.str "/a", 2, "0.200"⟩] (.str "/a") rfl (by decide)

/-- C5: whenever the report succeeds on a store whose retained url values are
strings (or absent), its rows are sorted ascending by url in codepoint
lexicographic order and every average cell is a fixed-point numeral with
exactly three digits after the decimal point (never scientific notation). -/
theorem c5_sorted_three_decimals (logs : List LogEntry) (rows : List StatRow)
    (hok : generate_average_report logs = .ok rows)
    (hurl : ∀ log ∈ logs, urlTyped log = true) :
    List.Pairwise
      (fun a b : StatRow => strLe (keyStr a.url) (keyStr b.url) = true) rows ∧
    ∀ row ∈ rows, fixed3 row.avg = true :=
  report_sorted_formatted logs rows hok hurl

/-- C5, witness: a two-url store whose rows come out in `/a`, `/b` order. -/
theorem c5_sorted_three_decimals_witness :
    List.Pairwise
      (fun a b : StatRow => strLe (keyStr a.url) (keyStr b.url) = true)
      [(⟨.str "/a", 1, "0.100"⟩ : StatRow), ⟨.str "/b", 1, "0.200"⟩] ∧
    ∀ row ∈ [(⟨.str "/a", 1, "0.100"⟩ : StatRow), ⟨.str "/b", 1, "0.200"⟩],
      fixed3 row.avg = true :=
  c5_sorted_three_decimals
    [[("url", .str "/b"), ("response_time", .num ⟨2, 10⟩)],
     [("url", .str "/a"), ("response_time", .num ⟨1, 10⟩)]]
    [⟨.str "/a", 1, "0.100"⟩, ⟨.str "/b", 1, "0.200"⟩] rfl (by decide)

/-- C6: the two ingestion paths diverge on the same records.  As two files,
the first file's AttributeError is caught per file and the second file's
passing record is retained; as in-memory data, the same error propagates to
the caller and the store is left empty. -/
theorem c6_paths_diverge :
    load_logs .new
        [("f1.log", .content ["\x7b\"@timestamp\": 1\x7d"]),
         ("f2.log", .content
           ["\x7b\"@timestamp\": \"2025-06-22T10:00:00+00:00\", \"url\": \"/a\"\x7d"])]
        ["f1.log", "f2.log"] (some "2025-06-22") =
      (⟨[[("@timestamp", .str "2025-06-22T10:00:00+00:00"),
          ("url", .str "/a")]]⟩, [.readError "f1.log"]) ∧
    load_logs_from_data .new
        [[("@timestamp", .num ⟨1, 1⟩)],
         [("@timestamp", .str "2025-06-22T10:00:00+00:00"), ("url", .str "/a")]]
        (some "2025-06-22") = (⟨[]⟩, some .attributeError) ∧
    jsonLoads "\x7b\"@timestamp\": 1\x7d" = some [("@timestamp", .num ⟨1, 1⟩)] ∧
    jsonLoads "\x7b\"@timestamp\": \"2025-06-22T10:00:00+00:00\", \"url\": \"/a\"\x7d" =
      some [("@timestamp", .str "2025-06-22T10:00:00+00:00"),
        ("url", .str "/a")] :=
  ⟨rfl, rfl, rfl, rfl⟩

/-- C7: when the second of two consecutive loads raises mid-way, the store
afterwards does not hold the full filtered result of the second call's input:
the passing record after the raising one is missing.  (No remnant of the
first call survives either: the store was reset first.) -/
theorem c7_second_load_partial :
    load_logs_from_data
        (load_logs_from_data .new [[("url", .str "/x")]] none).1
        [[("@timestamp", .num ⟨1, 1⟩)],
         [("@timestamp", .str "2025-06-22T10:00:00+00:00"), ("url", .str "/a")]]
        (some "2025-06-22") = (⟨[]⟩, some .attributeError) ∧
    should_include_log
        [("@timestamp", .str "2025-06-22T10:00:00+00:00"), ("url", .str "/a")]
        (some "2025-06-22") = .ok true :=
  ⟨rfl, rfl⟩

/-- C8: on any store in which no retained record has both a truthy url and a
non-null `response_time` (the empty store included), the statistics are the
empty sequence without error and the `"average"` report is exactly the
no-data text, as a successful report. -/
theorem c8_no_data (logs : List LogEntry)
    (hnone : ∀ log ∈ logs, ¬(optTruthy (getField log "url") = true ∧
      isNotNone (getField log "response_time") = true)) :
    generate_average_report logs = .ok [] ∧
    generate_report ⟨logs⟩ "average" =
      .ok (some "No data found for the specified criteria.") :=
  report_empty logs hnone

/-- C8, witness: a store whose single record has an empty url. -/
theorem c8_no_data_witness :
    generate_average_report
        [[("url", .str ""), ("response_time", .num ⟨2, 1⟩)]] = .ok [] ∧
    generate_report ⟨[[("url", .str ""), ("response_time", .num ⟨2, 1⟩)]]⟩
        "average" = .ok (some "No data found for the specified criteria.") :=
  c8_no_data _ (by decide)

/-- C9: an empty-string date filter is falsy, exactly like an absent filter,
so every record is included — even one whose timestamp is missing or not
parseable — whereas a malformed non-empty filter string excludes every record
whose timestamp value is a string. -/
theorem c9_empty_filter_includes_all :
    (∀ e : LogEntry, should_include_log e (some "") = .ok true) ∧
    (∀ (e : LogEntry) (ts f : String),
      getField e "@timestamp" = some (.str ts) →
      pyStrptimeYmd f = none → f ≠ "" →
      should_include_log e (some f) = .ok false) :=
  ⟨fun e => should_include_empty_filter e,
   fun e ts f hts hf hne => should_include_malformed e ts f hts hf hne⟩

/-- C9, witness: a record with numeric timestamp is included under the empty
filter, and a record with an unparseable timestamp is excluded under the
malformed filter `2025-13-99`. -/
theorem c9_empty_filter_includes_all_witness :
    should_include_log [("@timestamp", .num (.ofInt 5))] (some "") = .ok true ∧
    should_include_log [("@timestamp", .str "not-a-date")] (some "2025-13-99") =
      .ok false :=
  ⟨c9_empty_filter_includes_all.1 _,
   c9_empty_filter_includes_all.2 _ "not-a-date" "2025-13-99" rfl rfl
     (by decide)⟩

/-- C10: on every store whose retained url values are strings or absent and
whose `response_time` values are numeric or null (or absent), the report
pipeline is total: the statistics succeed, every row's division has a
positive count, every sort key is a string, and `generate_report "average"`
returns a report without raising. -/
theorem c10_report_total (logs : List LogEntry)
    (hurl : ∀ log ∈ logs, urlTyped log = true)
    (hrt : ∀ log ∈ logs, rtTyped log = true) :
    ∃ rows, generate_average_report logs = .ok rows ∧
      (∀ row ∈ rows, 0 < row.total ∧ ∃ s, row.url = .str s) ∧
      ∃ out, generate_report ⟨logs⟩ "average" = .ok (some out) :=
  report_total logs hurl hrt

/-- C10, witness: a concrete well-typed store. -/
theorem c10_report_total_witness :
    ∃ rows, generate_average_report
        [[("url", .str "/a"), ("response_time", .num ⟨1, 10⟩)],
         [("url", .str "/b"), ("response_time", .null)], [("status", .num ⟨200, 1⟩)]] =
        .ok rows ∧
      (∀ row ∈ rows, 0 < row.total ∧ ∃ s, row.url = .str s) ∧
      ∃ out, generate_report
        ⟨[[("url", .str "/a"), ("response_time", .num ⟨1, 10⟩)],
          [("url", .str "/b"), ("response_time", .null)],
          [("status", .num ⟨200, 1⟩)]]⟩ "average" = .ok (some out) :=
  c10_report_total _ (by decide) (by decide)

end LogProc
